import Mathlib

/-!
Verification of the chess engine core (board representation, move
generation, move application, state detection, evaluation and the
alpha-beta search agent) against its natural-language specification.

The Rust sources are shallowly embedded: structs become structures,
in-place mutation becomes explicit record update, `usize`/`u32`/`u64`
become `Nat` (with explicit `% 2 ^ 64` where the 64-bit hash wraps),
`i32` becomes `Int`, `Vec`/`FxHashSet` become `List` (the sets are only
ever tested for membership and extended, so a list with possible
duplicates is an exact model), and a Rust panic on an out-of-range grid
index is modelled by `Option`-returning reads and no-op writes (every
reachable call site guards indices with `valid_pos`, mirroring the
source).  Field and function names follow the source (`board.rs`,
`board_extras.rs`, `board_eval.rs`, `pieces/*.rs`, `util.rs`,
`agent.rs`).
-/

namespace Chess

/-- Black or white, the colors of chess (`ChessColor` in `board.rs`). -/
inductive ChessColor where
  | black
  | white
deriving DecidableEq, Repr

/-- Board state, `BoardState` in `board.rs`; the attached color of
`check`/`checkmate` is who is in check / checkmate. -/
inductive BoardState where
  | normal
  | check (c : ChessColor)
  | checkmate (c : ChessColor)
  | stalemate
  | draw
deriving DecidableEq, Repr

/-- Piece kinds, `PieceNames` in `pieces/piece.rs` (declaration order kept,
it fixes the hash discriminants). -/
inductive PieceNames where
  | pawn
  | knight
  | bishop
  | rook
  | queen
  | king
deriving DecidableEq, Repr

/-- A board location `Loc(x, y)` from `util.rs`: `.1` is the file (x),
`.2` the row (y, row 0 is Black's back rank). -/
abbrev Loc := Nat × Nat

/-- A piece: kind, color and current position (`Piece` in `pieces/piece.rs`). -/
structure Piece where
  name : PieceNames
  color : ChessColor
  pos : Loc
deriving DecidableEq, Repr

/-- `|a - b|` on `Nat`, Rust's `usize::abs_diff`. -/
def absDiff (a b : Nat) : Nat := max a b - min a b

/-- `Loc::copy_move_i32` from `util.rs`: shift by `(x_diff, y_diff)`;
reports `true` (with both coordinates clamped to `0`) exactly when a
coordinate went negative.  (Note: the source does not flag coordinates
that leave the board on the high side.) -/
def Loc.copy_move_i32 (l : Loc) (x_diff y_diff : Int) : Loc × Bool :=
  let new_x : Int := (l.1 : Int) + x_diff
  let new_y : Int := (l.2 : Int) + y_diff
  if new_x < 0 ∨ new_y < 0 then
    (((max new_x 0).toNat, (max new_y 0).toNat), true)
  else
    ((new_x.toNat, new_y.toNat), false)

/-- `Loc::move_i32` from `util.rs`, returning the moved location together
with the success flag (the source mutates in place and returns the flag). -/
def Loc.move_i32 (l : Loc) (x_diff y_diff : Int) : Loc × Bool :=
  let new_x : Int := (l.1 : Int) + x_diff
  let new_y : Int := (l.2 : Int) + y_diff
  if new_x < 0 ∨ new_y < 0 then
    (((max new_x 0).toNat, (max new_y 0).toNat), false)
  else
    ((new_x.toNat, new_y.toNat), true)

/-- `valid_pos` from `pieces/util.rs`: both coordinates in `[0, 8)`. -/
def valid_pos (l : Loc) : Bool := !(8 ≤ l.1 || 8 ≤ l.2)

/-- The board, `Board` in `board.rs`, with the same fields.  `raw` is the
8x8 grid (row-major, row 0 first); the `FxHashSet` fields are lists used
only through membership; `hash` is the 64-bit structural hash as a `Nat`
below `2 ^ 64`. -/
structure Board where
  raw : List (List (Option Piece))
  turn : ChessColor
  state : BoardState
  player_color : ChessColor
  agent_color : ChessColor
  castle_black : Bool × Bool
  castle_white : Bool × Bool
  en_passent : Option (Loc × ChessColor)
  score : Int
  attacks_white : List Loc
  attacks_black : List Loc
  check_white : Bool
  check_black : Bool
  blockers : List Loc
  moves_white : List (Loc × Loc)
  moves_black : List (Loc × Loc)
  half_moves : Nat
  prev_states : List Nat
  fifty_rule : Nat
  endgame : Bool
  hash : Nat
  agent_developments : (Bool × Bool) × (Bool × Bool)
deriving DecidableEq, Repr

/-- `Board::new()`: the `derive_new` defaults of `board.rs` (empty grid,
white to move, every flag reset). -/
def Board.new : Board where
  raw := List.replicate 8 (List.replicate 8 none)
  turn := .white
  state := .normal
  player_color := .white
  agent_color := .black
  castle_black := (true, true)
  castle_white := (true, true)
  en_passent := none
  score := 0
  attacks_white := []
  attacks_black := []
  check_white := false
  check_black := false
  blockers := []
  moves_white := []
  moves_black := []
  half_moves := 0
  prev_states := []
  fifty_rule := 0
  endgame := false
  hash := 0
  agent_developments := ((false, false), (false, false))

instance : Inhabited Board := ⟨Board.new⟩

/-- `Board::get`: `self.raw[loc.1][loc.0]`; the Rust index panic for an
off-board location is modelled as `none` (all reachable call sites guard
with `valid_pos`). -/
def Board.get (b : Board) (loc : Loc) : Option Piece :=
  ((b.raw.get? loc.2).bind fun row => row.get? loc.1).join

/-- `Board::set`: `self.raw[loc.1][loc.0] = value`; an off-board index
(a panic in Rust, unreachable through guarded call sites) is a no-op. -/
def Board.set (b : Board) (loc : Loc) (value : Option Piece) : Board :=
  { b with raw := b.raw.set loc.2 ((b.raw.getD loc.2 []).set loc.1 value) }

/-- The pieces on the board in row-major order:
`self.raw.iter().flatten().flatten()`. -/
def Board.pieces (b : Board) : List Piece :=
  b.raw.flatMap fun row => row.filterMap id

/-- `add` from `pieces/util.rs`: the move goes in if it is on the board
and does not capture a friendly piece (here returning the singleton to be
appended instead of pushing into a mutable vector). -/
def addMove (board : Board) (color : ChessColor) (location : Loc) : List Loc :=
  if valid_pos location then
    match board.get location with
    | some piece => if piece.color = color then [] else [location]
    | none => [location]
  else []

/-- `add_ff` from `pieces/util.rs`: the move goes in if it is on the board. -/
def addFF (location : Loc) : List Loc :=
  if valid_pos location then [location] else []

/-- `static_moves` from `pieces/util.rs`. -/
def static_moves (piece : Piece) (board : Board) (directions : List (Int × Int)) :
    List Loc :=
  directions.flatMap fun d =>
    let (loc, out) := piece.pos.copy_move_i32 d.1 d.2
    if out then [] else addMove board piece.color loc

/-- `static_attacks` from `pieces/util.rs`. -/
def static_attacks (piece : Piece) (directions : List (Int × Int)) : List Loc :=
  directions.flatMap fun d =>
    let (loc, out) := piece.pos.copy_move_i32 d.1 d.2
    if out then [] else addFF loc

/-- The `while valid_pos` loop of `directional_moves`: walk from `loc` in
direction `d` collecting empty squares, stopping at the first occupied
square (kept only if it is an enemy) or at the board edge.  The Rust loop
is bounded by the board geometry: from a valid square, at most 8 steps in
a fixed nonzero direction stay valid, so fuel 16 never truncates it. -/
def rayMovesGo (b : Board) (color : ChessColor) (d : Int × Int) :
    Nat → Loc → List Loc
  | 0, _ => []
  | fuel + 1, loc =>
    if valid_pos loc then
      match b.get loc with
      | some capture => if capture.color ≠ color then [loc] else []
      | none =>
        loc ::
          (let (nloc, ok) := loc.move_i32 d.1 d.2
           if ok then rayMovesGo b color d fuel nloc else [])
    else []

/-- `directional_moves` from `pieces/util.rs`. -/
def directional_moves (piece : Piece) (board : Board)
    (directions : List (Int × Int)) : List Loc :=
  directions.flatMap fun d =>
    let (loc, out) := piece.pos.copy_move_i32 d.1 d.2
    if out then [] else rayMovesGo board piece.color d 16 loc

/-- The `while valid_pos` loop of `directional_attacks`: like
`rayMovesGo` but every first occupied square is collected (defended
friendly pieces included). -/
def rayAttacksGo (b : Board) (d : Int × Int) : Nat → Loc → List Loc
  | 0, _ => []
  | fuel + 1, loc =>
    if valid_pos loc then
      match b.get loc with
      | some _ => [loc]
      | none =>
        loc ::
          (let (nloc, ok) := loc.move_i32 d.1 d.2
           if ok then rayAttacksGo b d fuel nloc else [])
    else []

/-- `directional_attacks` from `pieces/util.rs`. -/
def directional_attacks (piece : Piece) (board : Board)
    (directions : List (Int × Int)) : List Loc :=
  directions.flatMap fun d =>
    let (loc, out) := piece.pos.copy_move_i32 d.1 d.2
    if out then [] else rayAttacksGo board d 16 loc

/-- The king/knight/rook/bishop/queen direction tables from the
`pieces/*.rs` files. -/
def kingDirections : List (Int × Int) :=
  [(0, -1), (0, 1), (1, -1), (1, 0), (1, 1), (-1, -1), (-1, 0), (-1, 1)]

def knightDirections : List (Int × Int) :=
  [(1, 2), (2, 1), (2, -1), (1, -2), (-1, -2), (-2, -1), (-2, 1), (-1, 2)]

def rookDirections : List (Int × Int) := [(0, -1), (0, 1), (1, 0), (-1, 0)]

def bishopDirections : List (Int × Int) := [(1, 1), (1, -1), (-1, 1), (-1, -1)]

def queenDirections : List (Int × Int) :=
  [(0, -1), (0, 1), (1, 0), (-1, 0), (1, 1), (1, -1), (-1, 1), (-1, -1)]

/-- `add_if_empty` from `pieces/pawn.rs`: the square goes in when it is on
the board and empty; the flag mirrors the Rust return value. -/
def add_if_empty (board : Board) (location : Loc) : List Loc × Bool :=
  if valid_pos location ∧ (board.get location).isNone then ([location], true)
  else ([], false)

/-- `add_if_capture` from `pieces/pawn.rs`. -/
def add_if_capture (board : Board) (color : ChessColor) (location : Loc) :
    List Loc :=
  if valid_pos location then
    match board.get location with
    | some capture => if capture.color ≠ color then [location] else []
    | none => []
  else []

/-- `pawn_moves` from `pieces/pawn.rs`: forward step, double step from the
home rows, diagonal captures, and the en-passant capture read off
`board.en_passent`. -/
def pawn_moves (piece : Piece) (board : Board) : List Loc :=
  let direction : Int := if piece.color = .white then -1 else 1
  let (fwd, blocked) := add_if_empty board (piece.pos.copy_move_i32 0 direction).1
  let dbl :=
    if blocked ∧ (piece.pos.2 = 1 ∨ piece.pos.2 = 6) then
      (add_if_empty board (piece.pos.copy_move_i32 0 (direction * 2)).1).1
    else []
  let left_side := piece.pos.copy_move_i32 (-1) direction
  let leftCap := if left_side.2 = false then
      add_if_capture board piece.color left_side.1
    else []
  let right_side := piece.pos.copy_move_i32 1 direction
  let rightCap := if right_side.2 = false then
      add_if_capture board piece.color right_side.1
    else []
  let ep :=
    match board.en_passent with
    | some en_passent =>
      if en_passent.2 ≠ piece.color ∧ en_passent.1.2 = piece.pos.2 then
        if en_passent.1.1 = piece.pos.1 + 1 then
          addMove board piece.color (piece.pos.copy_move_i32 1 direction).1
        else if piece.pos.1 ≠ 0 ∧ en_passent.1.1 = piece.pos.1 - 1 then
          addMove board piece.color (piece.pos.copy_move_i32 (-1) direction).1
        else []
      else []
    | none => []
  fwd ++ dbl ++ leftCap ++ rightCap ++ ep

/-- `pawn_attacks` from `pieces/pawn.rs`: the two diagonal squares. -/
def pawn_attacks (piece : Piece) : List Loc :=
  let direction : Int := if piece.color = .white then -1 else 1
  addFF (piece.pos.copy_move_i32 1 direction).1 ++
    addFF (piece.pos.copy_move_i32 (-1) direction).1

/-- `king_moves` from `pieces/king.rs`: the eight steps, plus the castling
destinations when the right is intact, the king is not in check, and the
squares `1..=3` (queen side) resp. `5..=6` (king side) of the king's row
are all empty (the `clear_range!` macro). -/
def king_moves (piece : Piece) (board : Board) : List Loc :=
  let moves := static_moves piece board kingDirections
  if (if piece.color = .white then board.check_white else board.check_black) then
    moves
  else
    let qk := if piece.color = .white then board.castle_white else board.castle_black
    let queenClear :=
      ((List.range 3).map (fun i => board.get (i + 1, piece.pos.2))).all Option.isNone
    let kingClear :=
      ((List.range 2).map (fun i => board.get (i + 5, piece.pos.2))).all Option.isNone
    let moves := if qk.1 ∧ queenClear then moves ++ [(2, piece.pos.2)] else moves
    if qk.2 ∧ kingClear then moves ++ [(6, piece.pos.2)] else moves

/-- `king_attacks` from `pieces/king.rs`. -/
def king_attacks (piece : Piece) : List Loc :=
  static_attacks piece kingDirections

/-- `knight_moves` / `knight_attacks` from `pieces/knight.rs`. -/
def knight_moves (piece : Piece) (board : Board) : List Loc :=
  static_moves piece board knightDirections

def knight_attacks (piece : Piece) : List Loc :=
  static_attacks piece knightDirections

/-- `rook_moves` / `rook_attacks` from `pieces/rook.rs`. -/
def rook_moves (piece : Piece) (board : Board) : List Loc :=
  directional_moves piece board rookDirections

def rook_attacks (piece : Piece) (board : Board) : List Loc :=
  directional_attacks piece board rookDirections

/-- `bishop_moves` / `bishop_attacks` from `pieces/bishop.rs`. -/
def bishop_moves (piece : Piece) (board : Board) : List Loc :=
  directional_moves piece board bishopDirections

def bishop_attacks (piece : Piece) (board : Board) : List Loc :=
  directional_attacks piece board bishopDirections

/-- `queen_moves` / `queen_attacks` from `pieces/queen.rs`. -/
def queen_moves (piece : Piece) (board : Board) : List Loc :=
  directional_moves piece board queenDirections

def queen_attacks (piece : Piece) (board : Board) : List Loc :=
  directional_attacks piece board queenDirections

/-- `Piece::get_attacks` from `pieces/piece.rs`. -/
def Piece.get_attacks (self : Piece) (board : Board) : List Loc :=
  match self.name with
  | .pawn => pawn_attacks self
  | .knight => knight_attacks self
  | .king => king_attacks self
  | .rook => rook_attacks self board
  | .bishop => bishop_attacks self board
  | .queen => queen_attacks self board

/-- `Piece::get_value` from `pieces/piece.rs` (the small material scale
used by the move-ordering heuristic). -/
def Piece.get_value (self : Piece) : Int :=
  match self.name with
  | .pawn => 1
  | .knight => 3
  | .bishop => 3
  | .rook => 5
  | .queen => 9
  | .king => 100

/-- `Board::kings` (called `get_kings` in `board.rs`): the white and black
king locations, scanning the grid in row-major order. -/
def Board.get_kings (b : Board) : Option Loc × Option Loc :=
  b.pieces.foldl
    (fun acc piece =>
      if piece.name = .king then
        if piece.color = .white then (some piece.pos, acc.2)
        else (acc.1, some piece.pos)
      else acc)
    (none, none)

/-- `Board::attacks` (called `get_attacks` in `board.rs`): all squares
attacked by `color`, aggregating `Piece::get_attacks` over that color's
pieces (the `FxHashSet` is modelled as the concatenation; only membership
is ever used). -/
def Board.get_attacks (b : Board) (color : ChessColor) : List Loc :=
  b.pieces.flatMap fun piece =>
    if piece.color = color then piece.get_attacks b else []

/-- `Board::update_blockers`: every piece standing on a square attacked by
the opposite color. -/
def Board.update_blockers (b : Board) : Board :=
  let fromWhite := b.attacks_white.filter fun loc =>
    match b.get loc with
    | some piece => piece.color = .black
    | none => false
  let fromBlack := b.attacks_black.filter fun loc =>
    match b.get loc with
    | some piece => piece.color = .white
    | none => false
  { b with blockers := fromWhite ++ fromBlack }

/-! ### The 64-bit structural hash

`Board::hash` feeds `raw`, `castle_white`, `castle_black` and
`en_passent` to an `FxHasher`.  `FxHasher` folds every primitive write
into its state with `hash = (hash.rotate_left(5) ^ value) * SEED` on 64
bits; the derived `Hash` instances walk the fields in declaration order,
hashing an enum as its discriminant.  The model below reproduces that
fold over the stream of written words. -/

/-- The `FxHasher` multiplier `0x51_7c_c1_b7_27_22_0a_95`. -/
def fxSeed : Nat := 0x517cc1b727220a95

/-- 64-bit rotate left by 5. -/
def rotl5 (h : Nat) : Nat := ((h % 2 ^ 64) * 2 ^ 5) % 2 ^ 64 + h % 2 ^ 64 / 2 ^ 59

/-- One `FxHasher::add_to_hash` step. -/
def fxAdd (h value : Nat) : Nat := (Nat.xor (rotl5 h) (value % 2 ^ 64)) * fxSeed % 2 ^ 64

/-- The word stream of a hashed `ChessColor` (its discriminant). -/
def hashColor : ChessColor → List Nat
  | .black => [0]
  | .white => [1]

/-- The word stream of a hashed `PieceNames` (its discriminant). -/
def hashName : PieceNames → List Nat
  | .pawn => [0]
  | .knight => [1]
  | .bishop => [2]
  | .rook => [3]
  | .queen => [4]
  | .king => [5]

/-- The word stream of a hashed `Piece` (fields in order). -/
def hashPiece (p : Piece) : List Nat :=
  hashName p.name ++ hashColor p.color ++ [p.pos.1, p.pos.2]

/-- The word stream of a hashed `Option<Piece>` (discriminant, then the
payload). -/
def hashSquare : Option Piece → List Nat
  | none => [0]
  | some p => 1 :: hashPiece p

/-- The word stream of a hashed castle-rights pair. -/
def hashCastle (c : Bool × Bool) : List Nat :=
  [if c.1 then 1 else 0, if c.2 then 1 else 0]

/-- The word stream of the hashed `en_passent` field. -/
def hashEp : Option (Loc × ChessColor) → List Nat
  | none => [0]
  | some (l, c) => 1 :: l.1 :: l.2 :: hashColor c

/-- `Board::hash` from `board_extras.rs` (named `hashCalc` here because
`hash` is also the name of the cached field): the `FxHasher` fold over
exactly `raw`, `castle_white`, `castle_black` and `en_passent`. -/
def Board.hashCalc (b : Board) : Nat :=
  ((b.raw.flatMap fun row => row.flatMap hashSquare) ++
      hashCastle b.castle_white ++ hashCastle b.castle_black ++
      hashEp b.en_passent).foldl fxAdd 0

/-- `Board::move_raw`: update the moved piece's `pos`, copy it to `to`,
clear `from`. -/
def Board.move_raw (b : Board) (frm dst : Loc) : Board :=
  let b1 :=
    match b.get frm with
    | some piece => b.set frm (some { piece with pos := dst })
    | none => b
  let b2 := b1.set dst (b1.get frm)
  b2.set frm none

/-- `Board::is_capture` from `board.rs`: the captured square of a direct
capture, or of an en-passant capture (the recorded pawn's square); `none`
when the move captures nothing. -/
def Board.is_capture (b : Board) (frm dst : Loc) : Option Loc :=
  if (b.get dst).isSome then some dst
  else
    match b.get frm with
    | some piece =>
      if piece.name = .pawn ∧ absDiff frm.1 dst.1 = 1 then
        match b.en_passent with
        | some (loc, color) =>
          if dst.1 = loc.1 ∧ absDiff dst.2 loc.2 = 1 ∧ piece.color ≠ color then
            some loc
          else none
        | none => none
      else none
    | none => none

/-- The closing step of `Board::move_actions`: "Reset en passent if it
hasn't been set yet". -/
def Board.reset_en_passent (b1 : Board) (set_en_passent : Bool) : Board :=
  if ¬set_en_passent ∧ b1.en_passent.isSome then { b1 with en_passent := none }
  else b1

/-- `Board::move_actions` from `board.rs`: the side effects of moving the
piece at `frm` onto `dst` — castling-rights revocation and the rook shift of
a castle, promotion, setting/clearing `en_passent`, the en-passant
capture, the fifty-move and repetition resets of a pawn move, and the
agent development flags.  The Rust code first mutates the piece in place
(`pos`, possibly `name`), so the grid writes happen before the branch
body runs. -/
def Board.move_actions (b : Board) (frm dst : Loc) : Board :=
  match b.get frm with
  | none => b.reset_en_passent false
  | some p0 =>
    let p := { p0 with pos := dst }
    let b0 := b.set frm (some p)
    let (b1, set_en_passent) :=
      match p.name with
      | .king =>
        let bk :=
          if p.color = ChessColor.white then { b0 with castle_white := (false, false) }
          else { b0 with castle_black := (false, false) }
        let bk :=
          if absDiff frm.1 dst.1 = 2 then
            match dst.1 with
            | 2 => bk.move_raw (0, dst.2) (3, dst.2)
            | 6 => bk.move_raw (7, dst.2) (5, dst.2)
            | _ => bk
          else bk
        (bk, false)
      | .rook =>
        let br :=
          if frm = ((0, 0) : Loc) then
            { b0 with castle_black := (false, b0.castle_black.2) }
          else if frm = ((7, 0) : Loc) then
            { b0 with castle_black := (b0.castle_black.1, false) }
          else if frm = ((0, 7) : Loc) then
            { b0 with castle_white := (false, b0.castle_white.2) }
          else if frm = ((7, 7) : Loc) then
            { b0 with castle_white := (b0.castle_white.1, false) }
          else b0
        (br, false)
      | .pawn =>
        let p1 := if dst.2 = 0 ∨ dst.2 = 7 then { p with name := .queen } else p
        let bp := b0.set frm (some p1)
        let set_ep : Bool := decide (absDiff frm.2 dst.2 = 2)
        let bp :=
          if absDiff frm.2 dst.2 = 2 then
            { bp with en_passent := some (dst, p1.color) }
          else bp
        let bp :=
          if absDiff frm.1 dst.1 = 1 then
            match bp.en_passent with
            | some (loc, color) =>
              if dst.1 = loc.1 ∧ absDiff dst.2 loc.2 = 1 ∧ p1.color ≠ color then
                bp.set loc none
              else bp
            | none => bp
          else bp
        ({ bp with fifty_rule := bp.half_moves, prev_states := [] }, set_ep)
      | .knight =>
        let y := if p.color = ChessColor.white then 7 else 0
        let dev := b0.agent_developments
        let dev :=
          if frm = ((1, y) : Loc) then ((dev.1.1, true), dev.2)
          else if frm = ((6, y) : Loc) then ((true, dev.1.2), dev.2)
          else dev
        ({ b0 with agent_developments := dev }, false)
      | .bishop =>
        let y := if p.color = ChessColor.white then 7 else 0
        let dev := b0.agent_developments
        let dev :=
          if frm = ((2, y) : Loc) then (dev.1, (dev.2.1, true))
          else if frm = ((5, y) : Loc) then (dev.1, (true, dev.2.2))
          else dev
        ({ b0 with agent_developments := dev }, false)
      | .queen => (b0, false)
    b1.reset_en_passent set_en_passent

/-! ### Evaluation (`board_eval.rs`)

The piece-square tables of `piece_table`, one pair (white, black) per
piece kind, the king with a separate endgame pair. -/

def pawnTableW : List (List Int) :=
  [[0, 0, 0, 0, 0, 0, 0, 0],
   [50, 50, 50, 50, 50, 50, 50, 50],
   [10, 10, 20, 30, 30, 20, 10, 10],
   [5, 5, 10, 25, 25, 10, 5, 5],
   [0, 0, 0, 20, 20, 0, 0, 0],
   [5, -5, -10, 0, 0, -10, -5, 5],
   [5, 10, 10, -20, -20, 10, 10, 5],
   [0, 0, 0, 0, 0, 0, 0, 0]]

def pawnTableB : List (List Int) :=
  [[0, 0, 0, 0, 0, 0, 0, 0],
   [5, 10, 10, -20, -20, 10, 10, 5],
   [5, -5, -10, 0, 0, -10, -5, 5],
   [0, 0, 0, 20, 20, 0, 0, 0],
   [5, 5, 10, 25, 25, 10, 5, 5],
   [10, 10, 20, 30, 30, 20, 10, 10],
   [50, 50, 50, 50, 50, 50, 50, 50],
   [0, 0, 0, 0, 0, 0, 0, 0]]

def bishopTableW : List (List Int) :=
  [[-20, -10, -10, -10, -10, -10, -10, -20],
   [-10, 0, 0, 0, 0, 0, 0, -10],
   [-10, 0, 5, 10, 10, 5, 0, -10],
   [-10, 5, 5, 10, 10, 5, 5, -10],
   [-10, 0, 10, 10, 10, 10, 0, -10],
   [-10, 10, 10, 10, 10, 10, 10, -10],
   [-10, 5, 0, 0, 0, 0, 5, -10],
   [-20, -10, -10, -10, -10, -10, -10, -20]]

def bishopTableB : List (List Int) :=
  [[-20, -10, -10, -10, -10, -10, -10, -20],
   [-10, 5, 0, 0, 0, 0, 5, -10],
   [-10, 10, 10, 10, 10, 10, 10, -10],
   [-10, 0, 10, 10, 10, 10, 0, -10],
   [-10, 5, 5, 10, 10, 5, 5, -10],
   [-10, 0, 5, 10, 10, 5, 0, -10],
   [-10, 0, 0, 0, 0, 0, 0, -10],
   [-20, -10, -10, -10, -10, -10, -10, -20]]

def knightTableW : List (List Int) :=
  [[-50, -40, -30, -30, -30, -30, -40, -50],
   [-40, -20, 0, 0, 0, 0, -20, -40],
   [-30, 0, 10, 15, 15, 10, 0, -30],
   [-30, 5, 15, 20, 20, 15, 5, -30],
   [-30, 0, 15, 20, 20, 15, 0, -30],
   [-30, 5, 10, 15, 15, 10, 5, -30],
   [-40, -20, 0, 5, 5, 0, -20, -40],
   [-50, -40, -30, -30, -30, -30, -40, -50]]

def knightTableB : List (List Int) :=
  [[-50, -40, -30, -30, -30, -30, -40, -50],
   [-40, -20, 0, 5, 5, 0, -20, -40],
   [-30, 5, 10, 15, 15, 10, 5, -30],
   [-30, 0, 15, 20, 20, 15, 0, -30],
   [-30, 5, 15, 20, 20, 15, 5, -30],
   [-30, 0, 10, 15, 15, 10, 0, -30],
   [-40, -20, 0, 0, 0, 0, -20, -40],
   [-50, -40, -30, -30, -30, -30, -40, -50]]

def rookTableW : List (List Int) :=
  [[0, 0, 0, 0, 0, 0, 0, 0],
   [5, 10, 10, 10, 10, 10, 10, 5],
   [-5, 0, 0, 0, 0, 0, 0, -5],
   [-5, 0, 0, 0, 0, 0, 0, -5],
   [-5, 0, 0, 0, 0, 0, 0, -5],
   [-5, 0, 0, 0, 0, 0, 0, -5],
   [-5, 0, 0, 0, 0, 0, 0, -5],
   [0, 0, 0, 5, 5, 0, 0, 0]]

def rookTableB : List (List Int) :=
  [[0, 0, 0, 5, 5, 0, 0, 0],
   [-5, 0, 0, 0, 0, 0, 0, -5],
   [-5, 0, 0, 0, 0, 0, 0, -5],
   [-5, 0, 0, 0, 0, 0, 0, -5],
   [-5, 0, 0, 0, 0, 0, 0, -5],
   [-5, 0, 0, 0, 0, 0, 0, -5],
   [5, 10, 10, 10, 10, 10, 10, 5],
   [0, 0, 0, 0, 0, 0, 0, 0]]

def queenTableW : List (List Int) :=
  [[-20, -10, -10, -5, -5, -10, -10, -20],
   [-10, 0, 0, 0, 0, 0, 0, -10],
   [-10, 0, 5, 5, 5, 5, 0, -10],
   [-5, 0, 5, 5, 5, 5, 0, -5],
   [0, 0, 5, 5, 5, 5, 0, -5],
   [-10, 5, 5, 5, 5, 5, 0, -10],
   [-10, 0, 5, 0, 0, 0, 0, -10],
   [-20, -10, -10, -5, -5, -10, -10, -20]]

def queenTableB : List (List Int) :=
  [[-20, -10, -10, -5, -5, -10, -10, -20],
   [-10, 0, 5, 0, 0, 0, 0, -10],
   [-10, 5, 5, 5, 5, 5, 0, -10],
   [0, 0, 5, 5, 5, 5, 0, -5],
   [-5, 0, 5, 5, 5, 5, 0, -5],
   [-10, 0, 5, 5, 5, 5, 0, -10],
   [-10, 0, 0, 0, 0, 0, 0, -10],
   [-20, -10, -10, -5, -5, -10, -10, -20]]

def kingTableMidW : List (List Int) :=
  [[-30, -40, -40, -50, -50, -40, -40, -30],
   [-30, -40, -40, -50, -50, -40, -40, -30],
   [-30, -40, -40, -50, -50, -40, -40, -30],
   [-30, -40, -40, -50, -50, -40, -40, -30],
   [-20, -30, -30, -40, -40, -30, -30, -20],
   [-10, -20, -20, -20, -20, -20, -20, -10],
   [20, 20, 0, 0, 0, 0, 20, 20],
   [20, 30, 10, 0, 0, 10, 30, 20]]

def kingTableMidB : List (List Int) :=
  [[20, 30, 10, 0, 0, 10, 30, 20],
   [20, 20, 0, 0, 0, 0, 20, 20],
   [-10, -20, -20, -20, -20, -20, -20, -10],
   [-20, -30, -30, -40, -40, -30, -30, -20],
   [-30, -40, -40, -50, -50, -40, -40, -30],
   [-30, -40, -40, -50, -50, -40, -40, -30],
   [-30, -40, -40, -50, -50, -40, -40, -30],
   [-30, -40, -40, -50, -50, -40, -40, -30]]

def kingTableEndW : List (List Int) :=
  [[-50, -40, -30, -20, -20, -30, -40, -50],
   [-30, -20, -10, 0, 0, -10, -20, -30],
   [-30, -10, 20, 30, 30, 20, -10, -30],
   [-30, -10, 30, 40, 40, 30, -10, -30],
   [-30, -10, 30, 40, 40, 30, -10, -30],
   [-30, -10, 20, 30, 30, 20, -10, -30],
   [-30, -30, 0, 0, 0, 0, -30, -30],
   [-50, -30, -30, -30, -30, -30, -30, -50]]

def kingTableEndB : List (List Int) :=
  [[-50, -30, -30, -30, -30, -30, -30, -50],
   [-30, -30, 0, 0, 0, 0, -30, -30],
   [-30, -10, 20, 30, 30, 20, -10, -30],
   [-30, -10, 30, 40, 40, 30, -10, -30],
   [-30, -10, 30, 40, 40, 30, -10, -30],
   [-30, -10, 20, 30, 30, 20, -10, -30],
   [-30, -20, -10, 0, 0, -10, -20, -30],
   [-50, -40, -30, -20, -20, -30, -40, -50]]

/-- `piece_table` from `board_eval.rs`: the 8x8 square table for the
piece's kind and color, the king switching tables in the endgame. -/
def piece_table (piece : Piece) (endgame : Bool) : List (List Int) :=
  let white := piece.color = ChessColor.white
  match piece.name with
  | .pawn => if white then pawnTableW else pawnTableB
  | .bishop => if white then bishopTableW else bishopTableB
  | .knight => if white then knightTableW else knightTableB
  | .rook => if white then rookTableW else rookTableB
  | .queen => if white then queenTableW else queenTableB
  | .king =>
    match endgame with
    | false => if white then kingTableMidW else kingTableMidB
    | true => if white then kingTableEndW else kingTableEndB

/-- `piece_value` from `board_eval.rs`: the centipawn material scale. -/
def piece_value : PieceNames → Int
  | .pawn => 100
  | .knight => 320
  | .bishop => 330
  | .rook => 500
  | .queen => 900
  | .king => 20000

/-- `full_piece_value` from `board_eval.rs`:
`piece_value + piece_table[pos.1][pos.0]` (the Rust index panic for an
off-board `pos` is modelled as table value 0; pieces on the grid always
carry on-board positions). -/
def full_piece_value (piece : Piece) (endgame : Bool) : Int :=
  piece_value piece.name + ((piece_table piece endgame).getD piece.pos.2 []).getD piece.pos.1 0

def CHECK_VALUE : Int := 50

def CHECKMATE_VALUE : Int := 20000

def STALEMATE_VALUE : Int := -100

/-- `Board::get_score` from `board_eval.rs`: terminal shortcuts for
checkmate / stalemate / draw, otherwise the signed sum of
`full_piece_value` over the grid plus the check adjustment. -/
def Board.get_score (b : Board) : Int :=
  match b.state with
  | .checkmate check_color =>
    if check_color = ChessColor.white then -CHECKMATE_VALUE else CHECKMATE_VALUE
  | .stalemate => STALEMATE_VALUE
  | .draw => STALEMATE_VALUE
  | _ =>
    let score := b.pieces.foldl
      (fun score piece =>
        let value := full_piece_value piece b.endgame
        if piece.color = ChessColor.white then score + value else score - value)
      0
    match b.state with
    | .check check_color =>
      if check_color = ChessColor.white then score - CHECK_VALUE else score + CHECK_VALUE
    | _ => score

/-- `Board::move_value` from `board_eval.rs` (the move-ordering
heuristic): `-100` for an empty origin; `i32::MAX` when the moving piece
is a pawn standing on row 0 or 7; otherwise the square-table difference
(origin minus destination) plus, for captures, mover value minus captured
value on the small `Piece::get_value` scale.  (The Rust `unwrap` of the
captured square cannot fail - `is_capture` only returns occupied squares
- and is modelled by a `getD`-style fallback of 0.) -/
def Board.move_value (b : Board) (frm dst : Loc) : Int :=
  match b.get frm with
  | none => -100
  | some piece =>
    if piece.name = .pawn ∧ (piece.pos.2 = 7 ∨ piece.pos.2 = 0) then 2147483647
    else
      let temp_piece := { piece with pos := dst }
      let score :=
        full_piece_value piece b.endgame - full_piece_value temp_piece b.endgame
      match b.is_capture frm dst with
      | some capture_pos =>
        score + (piece.get_value -
          (match b.get capture_pos with
           | some captured => captured.get_value
           | none => 0))
      | none => score

/-- `Board::detect_state` from `board.rs`, returning the new `state`
value (the source assigns it in place): fifty-move draw, threefold
repetition (the early-exit counting loop of the source is exactly
"`hash` occurs at least 3 times in `prev_states`"), two-piece draw, then
check / checkmate / stalemate.  `half_moves - fifty_rule` is `u32`
subtraction, used under the `fifty_rule ≤ half_moves` invariant that
`move_piece` maintains. -/
def Board.detect_state (b : Board) (check_stale : Bool) : BoardState :=
  if 50 ≤ b.half_moves - b.fifty_rule then .draw
  else if 3 ≤ b.prev_states.count b.hash then .draw
  else if b.pieces.length = 2 then .draw
  else
    match b.check_white, b.check_black with
    | true, false =>
      if b.moves_white.isEmpty then .checkmate .white else .check .white
    | false, true =>
      if b.moves_black.isEmpty then .checkmate .black else .check .black
    | false, false =>
      if ¬check_stale then b.state
      else
        let moves := if b.turn = ChessColor.white then b.moves_white else b.moves_black
        if moves.isEmpty then .stalemate else .normal
    | true, true => b.state

/-- The endgame flag computed at the end of `Board::update_things`:
no queens left, or at most as many minor pieces as queens. -/
def Board.computeEndgame (b : Board) : Bool :=
  let queens := b.pieces.countP fun piece => piece.name = .queen
  let minors := b.pieces.countP fun piece =>
    piece.name = .bishop ∨ piece.name = .knight
  queens = 0 || minors ≤ queens

/-- Steps 1-3 of `Board::update_things` (they do not depend on
`check_stale`): recompute the attack sets, then the check flags (a
missing king counts as in check), then the blockers. -/
def Board.update_things_pre (b : Board) : Board :=
  let b := { b with attacks_white := b.get_attacks .white }
  let b := { b with attacks_black := b.get_attacks .black }
  let kings := b.get_kings
  let b :=
    { b with
      check_white :=
        match kings.1 with
        | some white_king => b.attacks_black.contains white_king
        | none => true }
  let b :=
    { b with
      check_black :=
        match kings.2 with
        | some black_king => b.attacks_white.contains black_king
        | none => true }
  b.update_blockers

/-- The tail of `Board::update_things`: state detection, the endgame
flag, and the score, in the source's order. -/
def Board.update_things_post (b : Board) (check_stale : Bool) : Board :=
  let b := { b with state := b.detect_state check_stale }
  let b := { b with endgame := b.computeEndgame }
  { b with score := b.get_score }

/-- `Board::update_things(false)`: the legal-move lists are left stale
(this is the variant the legality simulations and the search run). -/
def Board.update_things_nostale (b : Board) : Board :=
  (b.update_things_pre).update_things_post false

/-- The special case opening `Board::move_piece`: capturing an unmoved
corner rook revokes that corner's castling right. -/
def Board.captured_rook_castle_update (b : Board) (frm dst : Loc) : Board :=
  match b.is_capture frm dst with
  | some capture_pos =>
    match b.get capture_pos with
    | some piece =>
      if piece.name = PieceNames.rook then
        match piece.color with
        | .white =>
          if piece.pos = ((0, 7) : Loc) then
            { b with castle_white := (false, b.castle_white.2) }
          else if piece.pos = ((7, 7) : Loc) then
            { b with castle_white := (b.castle_white.1, false) }
          else b
        | .black =>
          if piece.pos = ((0, 0) : Loc) then
            { b with castle_black := (false, b.castle_black.2) }
          else if piece.pos = ((7, 0) : Loc) then
            { b with castle_black := (b.castle_black.1, false) }
          else b
      else b
    | none => b
  | none => b

/-- The committed-move body of `Board::move_piece` before the final
`update_things` call: the castle-rook-capture special case, the
`move_actions` side effects, the raw relocation, the turn flip and
half-move increment, the hash recomputation, the bounded
`prev_states` push (at capacity 24 the oldest entry is dropped and the
new hash stored in front, which is `rotate_right(1)` plus overwriting
slot 0), and the fifty-move reset on capture. -/
def Board.move_piece_act (b : Board) (frm dst : Loc) : Board × Bool :=
  let capture := (b.is_capture frm dst).isSome
  let b := b.captured_rook_castle_update frm dst
  let b := b.move_actions frm dst
  let b := b.move_raw frm dst
  let b :=
    { b with
      turn := (match b.turn with | .black => .white | .white => .black),
      half_moves := b.half_moves + 1 }
  let b := { b with hash := b.hashCalc }
  let b :=
    { b with
      prev_states :=
        if b.prev_states.length = 24 then b.hash :: b.prev_states.dropLast
        else b.prev_states ++ [b.hash] }
  let b := if capture then { b with fifty_rule := b.half_moves } else b
  (b, capture)

/-- `Board::move_piece(from, to, false)`: a committed move followed by the
stale-move-list update (the variant used by the legality simulations and
by the search); moving from an empty square returns the board unchanged
with `false`. -/
def Board.move_piece_nostale (b : Board) (frm dst : Loc) : Board × Bool :=
  match b.get frm with
  | none => (b, false)
  | some _ =>
    let (b1, capture) := b.move_piece_act frm dst
    (b1.update_things_nostale, capture)

/-- `Piece::get_moves` from `pieces/piece.rs`: empty when it is not this
color's turn; the per-kind pseudo-moves, a king additionally dropping
destinations inside the set of squares the opponent attacks (the source
reads the board's "attack(s) against this color" set - `attacks_black`
for a white king in `board.rs`'s field naming); finally, when the piece
stands in `blockers`, each move is simulated with
`move_piece(pos, to, false)` on a clone and kept only if the mover's own
check flag is false afterwards. -/
def Piece.get_moves (self : Piece) (board : Board) : List Loc :=
  if self.color ≠ board.turn then []
  else
    let temp_moves :=
      match self.name with
      | .pawn => pawn_moves self board
      | .knight => knight_moves self board
      | .king =>
        (king_moves self board).filter fun dst =>
          let attacks :=
            if self.color = ChessColor.white then board.attacks_black
            else board.attacks_white
          !attacks.contains dst
      | .rook => rook_moves self board
      | .bishop => bishop_moves self board
      | .queen => queen_moves self board
    if board.blockers.contains self.pos then
      temp_moves.filter fun dst =>
        let new_board := (board.move_piece_nostale self.pos dst).1
        if self.color = ChessColor.white then !new_board.check_white
        else !new_board.check_black
    else temp_moves

/-- `Board::moves` from `board_extras.rs` (`board.rs` calls it
`get_moves`): all `(from, to)` pairs of `color`, aggregating
`Piece::get_moves` over that color's pieces in row-major grid order. -/
def Board.get_moves (b : Board) (color : ChessColor) : List (Loc × Loc) :=
  b.pieces.flatMap fun piece =>
    if piece.color = color then (piece.get_moves b).map fun m => (piece.pos, m)
    else []

/-- `Board::update_things` from `board.rs`: attacks, checks, blockers,
then (only when `check_stale`) both legal-move lists, then state
detection, the endgame flag and the score. -/
def Board.update_things (b : Board) (check_stale : Bool) : Board :=
  let b := b.update_things_pre
  let b := if check_stale then { b with moves_white := b.get_moves .white } else b
  let b := if check_stale then { b with moves_black := b.get_moves .black } else b
  b.update_things_post check_stale

/-- `Board::move_piece` from `board.rs`. -/
def Board.move_piece (b : Board) (frm dst : Loc) (check_stale : Bool) :
    Board × Bool :=
  match b.get frm with
  | none => (b, false)
  | some _ =>
    let (b1, capture) := b.move_piece_act frm dst
    (b1.update_things check_stale, capture)

/-- `Board::full_moves`: `half_moves / 2`. -/
def Board.full_moves (b : Board) : Nat := b.half_moves / 2

/-- `Board::is_over` from `board_extras.rs`. -/
def Board.is_over (b : Board) : Bool :=
  match b.state with
  | .checkmate _ => true
  | .stalemate => true
  | .draw => true
  | _ => false

/-! ### FEN import / export (`board_extras.rs`, `util.rs`) -/

/-- `Loc::as_notation` from `util.rs`: file letter from `x + 97`, rank
digit by the row match (the panic for a row above 7 is modelled as a
placeholder character, unreachable for on-board locations). -/
def Loc.asSquareName (l : Loc) : String :=
  let x := Char.ofNat (l.1 + 97)
  let y : Char :=
    match l.2 with
    | 0 => '8' | 1 => '7' | 2 => '6' | 3 => '5'
    | 4 => '4' | 5 => '3' | 6 => '2' | 7 => '1'
    | _ => '?'
  String.mk [x, y]

/-- `Loc::from_notation` from `util.rs` (panics - here `none` - on a
string without two usable characters, a file character below `a`, or a
rank character outside `1..=8`). -/
def Loc.ofSquareName (s : List Char) : Option Loc :=
  match s with
  | xc :: yc :: _ =>
    if xc.toNat < 97 then none
    else
      let x := xc.toNat - 97
      match yc with
      | '8' => some (x, 0) | '7' => some (x, 1) | '6' => some (x, 2)
      | '5' => some (x, 3) | '4' => some (x, 4) | '3' => some (x, 5)
      | '2' => some (x, 6) | '1' => some (x, 7)
      | _ => none
  | _ => none

/-- Splitting a character list at separators, with the semantics of
Rust's `str::split`: `n` separators yield `n + 1` pieces, empty pieces
kept. -/
def splitAtPred (p : Char → Bool) : List Char → List (List Char)
  | [] => [[]]
  | x :: xs =>
    match splitAtPred p xs with
    | [] => [[]]
    | r :: rs => if p x then [] :: r :: rs else (x :: r) :: rs

/-- Splitting at a single separator character. -/
def splitAtChar (sep : Char) : List Char → List (List Char) :=
  splitAtPred fun c => c = sep

/-- Splitting a character list at whitespace runs, with the semantics of
Rust's `str::split_whitespace` (no empty pieces). -/
def splitWhitespace (l : List Char) : List (List Char) :=
  (splitAtPred Char.isWhitespace l).filter fun part => part ≠ []

/-- `validate_fen` from `util.rs`: eight `/`-separated rows, each of
whose digit/piece characters account for exactly 8 files. -/
def validate_fen (fen : String) : Bool :=
  let rows := splitAtChar '/' fen.toList
  rows.length = 8 &&
    rows.all fun row =>
      (row.foldl
        (fun sum c => if c.isDigit then sum + (c.toNat - 48) else sum + 1) 0) = 8

/-- Rust's `str::parse::<u32>()` on a character list: all characters must
be digits (at least one). -/
def parseU32 (l : List Char) : Option Nat :=
  if l ≠ [] ∧ l.all Char.isDigit then
    some (l.foldl (fun n c => n * 10 + (c.toNat - 48)) 0)
  else none

/-- `char_to_piece` from `board_extras.rs` (panic on an unknown letter
modelled as `none`). -/
def char_to_piece (c : Char) : Option PieceNames :=
  match c.toLower with
  | 'p' => some .pawn
  | 'n' => some .knight
  | 'b' => some .bishop
  | 'r' => some .rook
  | 'q' => some .queen
  | 'k' => some .king
  | _ => none

/-- `piece_to_char` from `board_extras.rs`. -/
def piece_to_char : PieceNames → Char
  | .pawn => 'p'
  | .rook => 'r'
  | .knight => 'n'
  | .bishop => 'b'
  | .queen => 'q'
  | .king => 'k'

/-- One character of the piece-placement pass of `Board::from_fen`:
`/` starts the next row, a digit skips files, a letter places the piece
(uppercase white) and advances. -/
def fenPlacementStep (acc : Option (Board × Nat × Nat)) (c : Char) :
    Option (Board × Nat × Nat) :=
  acc.bind fun s =>
    let (board, x, y) := s
    if c = '/' then some (board, 0, y + 1)
    else if c.isDigit then some (board, x + (c.toNat - 48), y)
    else
      let color := if c.isUpper then ChessColor.white else ChessColor.black
      (char_to_piece c).map fun name =>
        (board.set (x, y) (some ⟨name, color, (x, y)⟩), x + 1, y)

/-- `Board::from_fen` from `board_extras.rs` (every `panic!` is `none`):
split on whitespace; place the pieces onto a `Board::new()` (whose castle
rights start all-true; the castling field only ever sets rights to true);
read turn, castling characters, the en-passant square (which must hold a
piece, whose color is recorded), the fifty-move clock and the full-move
number (`half_moves` is reconstructed from it by the turn's parity, a
`u32` computation meaningful for full-move numbers ≥ 1); finally run
`update_things(true)`. -/
def Board.from_fen (fen : String) : Option Board :=
  let fen_parts := splitWhitespace fen.toList
  match fen_parts with
  | board_fen :: turn_s :: castle_fen :: ep_s :: fifty_s :: full_s :: _ =>
    if ¬validate_fen (String.mk board_fen) then none
    else
      match board_fen.foldl fenPlacementStep (some (Board.new, 0, 0)) with
      | none => none
      | some (board0, _, _) =>
        match
          (match turn_s with
           | ['w'] => some ChessColor.white
           | ['b'] => some ChessColor.black
           | _ => none) with
        | none => none
        | some turn =>
          let board1 := { board0 with turn := turn }
          match
            castle_fen.foldl
              (fun acc c =>
                acc.bind fun b =>
                  match c with
                  | 'K' => some { b with castle_white := (b.castle_white.1, true) }
                  | 'Q' => some { b with castle_white := (true, b.castle_white.2) }
                  | 'k' => some { b with castle_black := (b.castle_black.1, true) }
                  | 'q' => some { b with castle_black := (true, b.castle_black.2) }
                  | '-' => some b
                  | _ => none)
              (some board1) with
          | none => none
          | some board2 =>
            match
              (if ep_s = ['-'] then some board2
               else
                 (Loc.ofSquareName ep_s).bind fun loc =>
                   (board2.get loc).map fun piece =>
                     { board2 with en_passent := some (loc, piece.color) }) with
            | none => none
            | some board3 =>
              match parseU32 fifty_s, parseU32 full_s with
              | some fifty, some full_moves =>
                let board4 := { board3 with fifty_rule := fifty }
                let half :=
                  if board4.turn = ChessColor.white then (full_moves - 1) * 2
                  else (full_moves - 1) * 2 + 1
                some (({ board4 with half_moves := half }).update_things true)
              | _, _ => none
  | _ => none

/-- One grid row of `Board::as_fen`: pieces as cased letters, runs of
empty squares as their length, flushed before a piece and at file 7. -/
def rowFen (row : List (Option Piece)) : String :=
  (row.enum.foldl
    (fun (acc : String × Nat) p =>
      match p.2 with
      | some piece =>
        let s := if acc.2 ≠ 0 then acc.1 ++ toString acc.2 else acc.1
        let c := piece_to_char piece.name
        let c := if piece.color = ChessColor.white then c.toUpper else c
        (s.push c, 0)
      | none =>
        let empty := acc.2 + 1
        (if p.1 = 7 then acc.1 ++ toString empty else acc.1, empty))
    ("", 0)).1

/-- `Board::as_fen` from `board_extras.rs`: the placement rows joined by
`/`, the turn letter, the castling characters (in the source `K` is
written for `castle_white.0` and `Q` for `castle_white.1`,
i.e. queen side before king side under `board.rs`'s
`(queen side, king side)` field order), the recorded en-passant square,
`half_moves - fifty_rule`, and `full_moves() + 1`. -/
def Board.as_fen (b : Board) : String :=
  let board_fen := String.intercalate "/" (b.raw.map rowFen)
  let castle :=
    if ¬b.castle_white.1 ∧ ¬b.castle_white.2 ∧ ¬b.castle_black.1 ∧
        ¬b.castle_black.2 then "-"
    else
      (if b.castle_white.1 then "K" else "") ++
        (if b.castle_white.2 then "Q" else "") ++
        (if b.castle_black.1 then "k" else "") ++
        (if b.castle_black.2 then "q" else "")
  let ep :=
    match b.en_passent with
    | some en_passent => en_passent.1.asSquareName
    | none => "-"
  board_fen ++ " " ++ (if b.turn = ChessColor.white then "w" else "b") ++
    " " ++ castle ++ " " ++ ep ++ " " ++ toString (b.half_moves - b.fifty_rule) ++
    " " ++ toString (b.full_moves + 1)

/-! ### Move ordering and the search agent (`board_eval.rs`, `agent.rs`) -/

/-- Descending insertion by `move_value`.  The source sorts with
`sort_unstable_by` on the descending comparator, whose order among
equal-valued moves is unspecified; this deterministic insertion sort is
one admissible refinement, and every theorem below uses the same ordering
on both sides. -/
def insertMoveDesc (b : Board) (m : Loc × Loc) :
    List (Loc × Loc) → List (Loc × Loc)
  | [] => [m]
  | x :: xs =>
    if b.move_value x.1 x.2 < b.move_value m.1 m.2 then m :: x :: xs
    else x :: insertMoveDesc b m xs

/-- `Board::get_sorted_moves` from `board_eval.rs`: the same aggregation
as `Board::get_moves`, sorted descending by `move_value`. -/
def Board.get_sorted_moves (b : Board) (color : ChessColor) :
    List (Loc × Loc) :=
  (b.get_moves color).foldr (insertMoveDesc b) []

def I32_MIN : Int := -2147483648

def I32_MAX : Int := 2147483647

/-- The `OPENINGS_BLACK` table of `agent.rs`. -/
def OPENINGS_BLACK : List (Loc × Loc) :=
  [((2, 1), (2, 3)), ((3, 1), (3, 3)), ((4, 1), (4, 3)), ((5, 1), (5, 3))]

/-- The `OPENINGS_WHITE` table of `agent.rs`. -/
def OPENINGS_WHITE : List (Loc × Loc) :=
  [((2, 6), (2, 4)), ((3, 6), (3, 4)), ((4, 6), (4, 4)), ((5, 6), (5, 4))]

/-- `choose_array` from `util.rs` picks `arr[gen_range(0, arr.len())]`
from macroquad's global RNG; the draw is modelled by the explicit
argument `r`, reduced modulo the length.  Both search variants below are
run with the same draw. -/
def choose_array (r : Nat) (arr : List (Loc × Loc)) : Loc × Loc :=
  arr.getD (r % arr.length) ((0, 0), (0, 0))

/-- The maximizing loop of `minimax` in `agent.rs`: clone, apply the
move with `move_piece(from, to, false)`, recurse through `next` with the
current window, raise `max_score` / `best_move` on a strict improvement,
raise `alpha`, and break as soon as `beta ≤ alpha`. -/
def abLoopMax (next : Board → Int → Int → Int × Option (Loc × Loc))
    (board : Board) (beta : Int) :
    List (Loc × Loc) → Int → Option (Loc × Loc) → Int →
      Int × Option (Loc × Loc)
  | [], max_score, best_move, _ => (max_score, best_move)
  | (frm, dst) :: rest, max_score, best_move, alpha =>
    let test_board := (board.move_piece frm dst false).1
    let score := (next test_board alpha beta).1
    let (max_score, best_move) :=
      if max_score < score then (score, some (frm, dst))
      else (max_score, best_move)
    let alpha := max alpha max_score
    if beta ≤ alpha then (max_score, best_move)
    else abLoopMax next board beta rest max_score best_move alpha

/-- The minimizing loop of `minimax` in `agent.rs`. -/
def abLoopMin (next : Board → Int → Int → Int × Option (Loc × Loc))
    (board : Board) (alpha : Int) :
    List (Loc × Loc) → Int → Option (Loc × Loc) → Int →
      Int × Option (Loc × Loc)
  | [], min_score, best_move, _ => (min_score, best_move)
  | (frm, dst) :: rest, min_score, best_move, beta =>
    let test_board := (board.move_piece frm dst false).1
    let score := (next test_board alpha beta).1
    let (min_score, best_move) :=
      if score < min_score then (score, some (frm, dst))
      else (min_score, best_move)
    let beta := min beta min_score
    if beta ≤ alpha then (min_score, best_move)
    else abLoopMin next board alpha rest min_score best_move beta

/-- `minimax` from `agent.rs`: alpha-beta minimax over `u8` depth.
Base case at depth 0 or a finished game; the random opening reply on the
game's very first move (`full_moves() == 0`, modelled with the explicit
RNG draw `r`); otherwise the sorted moves of the side to move are
searched through the pruning loops. -/
def minimax (r : Nat) : Nat → Board → Bool → Int → Int →
    Int × Option (Loc × Loc)
  | 0, board, _, _, _ => (board.score, none)
  | depth + 1, board, maximizing, alpha, beta =>
    if board.is_over then (board.score, none)
    else if board.full_moves = 0 then
      (0, some (choose_array r
        (if board.agent_color = ChessColor.white then OPENINGS_WHITE
         else OPENINGS_BLACK)))
    else
      let moves :=
        if board.turn = ChessColor.white then board.get_sorted_moves .white
        else board.get_sorted_moves .black
      if maximizing then
        abLoopMax (fun tb a bt => minimax r depth tb false a bt) board beta
          moves I32_MIN none alpha
      else
        abLoopMin (fun tb a bt => minimax r depth tb true a bt) board alpha
          moves I32_MAX none beta

/-- `minimax_agent` from `agent.rs`: depth 4, minimizing at the root,
full `(i32::MIN, i32::MAX)` window. -/
def minimax_agent (r : Nat) (board : Board) : Option (Loc × Loc) :=
  (minimax r 4 board false I32_MIN I32_MAX).2

/-- The maximizing loop with the alpha-beta cutoff disabled (the
comparison recursion of the specification's "unpruned full minimax": the
identical loop, no window, no break). -/
def fullLoopMax (next : Board → Int × Option (Loc × Loc)) (board : Board) :
    List (Loc × Loc) → Int → Option (Loc × Loc) → Int × Option (Loc × Loc)
  | [], max_score, best_move => (max_score, best_move)
  | (frm, dst) :: rest, max_score, best_move =>
    let test_board := (board.move_piece frm dst false).1
    let score := (next test_board).1
    let (max_score, best_move) :=
      if max_score < score then (score, some (frm, dst))
      else (max_score, best_move)
    fullLoopMax next board rest max_score best_move

/-- The minimizing loop with the alpha-beta cutoff disabled. -/
def fullLoopMin (next : Board → Int × Option (Loc × Loc)) (board : Board) :
    List (Loc × Loc) → Int → Option (Loc × Loc) → Int × Option (Loc × Loc)
  | [], min_score, best_move => (min_score, best_move)
  | (frm, dst) :: rest, min_score, best_move =>
    let test_board := (board.move_piece frm dst false).1
    let score := (next test_board).1
    let (min_score, best_move) :=
      if score < min_score then (score, some (frm, dst))
      else (min_score, best_move)
    fullLoopMin next board rest min_score best_move

/-- Minimax with pruning disabled: the identical recursion to `minimax`
(same base cases, same opening draw, same sorted move lists, same strict
update discipline) with the alpha-beta window and cutoff removed.  This
is the specification's comparison algorithm for the alpha-beta
equivalence property. -/
def minimax_unpruned (r : Nat) : Nat → Board → Bool →
    Int × Option (Loc × Loc)
  | 0, board, _ => (board.score, none)
  | depth + 1, board, maximizing =>
    if board.is_over then (board.score, none)
    else if board.full_moves = 0 then
      (0, some (choose_array r
        (if board.agent_color = ChessColor.white then OPENINGS_WHITE
         else OPENINGS_BLACK)))
    else
      let moves :=
        if board.turn = ChessColor.white then board.get_sorted_moves .white
        else board.get_sorted_moves .black
      if maximizing then
        fullLoopMax (fun tb => minimax_unpruned r depth tb false) board
          moves I32_MIN none
      else
        fullLoopMin (fun tb => minimax_unpruned r depth tb true) board
          moves I32_MAX none

/-- An 8x8 grid: 8 rows of 8 squares.  Every board the engine constructs
satisfies this. -/
def GridWF (g : List (List (Option Piece))) : Prop :=
  g.length = 8 ∧ ∀ row ∈ g, row.length = 8

instance (g : List (List (Option Piece))) : Decidable (GridWF g) := by
  unfold GridWF
  infer_instance

/-- The stored score is the computed score — true of every board that
went through `update_things` (which ends with `score = get_score()`). -/
def ScoreComputed (b : Board) : Prop := b.score = b.get_score

instance (b : Board) : Decidable (ScoreComputed b) := by
  unfold ScoreComputed
  infer_instance

/-- The fail-soft relation between a pruned search value `s` computed in
the window `(α, β)` and the unpruned value `v` of the same node: inside
the window they agree, a fail-low is a sound upper bound, a fail-high a
sound lower bound. -/
def triRel (α β s v : Int) : Prop :=
  (α < v → v < β → s = v) ∧ (v ≤ α → v ≤ s ∧ s ≤ α) ∧
    (β ≤ v → β ≤ s ∧ s ≤ v)

/-- The value of the unpruned maximizing loop: a left fold of `max` over
the child values. -/
def maxFold (g : Board → Int) (board : Board) (l : List (Loc × Loc))
    (init : Int) : Int :=
  l.foldl (fun acc m => max acc (g ((board.move_piece m.1 m.2 false).1))) init

/-- The value of the unpruned minimizing loop. -/
def minFold (g : Board → Int) (board : Board) (l : List (Loc × Loc))
    (init : Int) : Int :=
  l.foldl (fun acc m => min acc (g ((board.move_piece m.1 m.2 false).1))) init

/-! ### Concrete boards used as inputs below -/

/-- The standard starting position in FEN. -/
def fenStart : String := "rnbqkbnr/pppppppp/8/8/8/8/PPPPPPPP/RNBQKBNR w KQkq - 0 1"

/-- The standard starting board, as the engine builds it
(`Board::from_fen` of the starting FEN). -/
def startBoard : Board := (Board.from_fen fenStart).getD Board.new

/-- After 1. Nh3 (g1-h3). -/
def rgBoard1 : Board := (startBoard.move_piece (6, 7) (7, 5) true).1

/-- After 1. Nh3 a6 (a7-a6). -/
def rgBoard2 : Board := (rgBoard1.move_piece (0, 1) (0, 2) true).1

/-- After 1. Nh3 a6 2. Rg1 (h1-g1): white has lost the king-side
castling right, `castle_white = (true, false)`. -/
def rgBoard3 : Board := (rgBoard2.move_piece (7, 7) (6, 7) true).1

/-- White king h5, pawn e5; black king a8, rook a5, pawn d5 recorded as a
just-made double step: the en-passant capture e5xd6 opens the fifth rank
onto the white king. -/
def epPinBoard : Board :=
  ({ (((((Board.new.set (7, 3) (some ⟨.king, .white, (7, 3)⟩)).set
          (4, 3) (some ⟨.pawn, .white, (4, 3)⟩)).set
          (0, 0) (some ⟨.king, .black, (0, 0)⟩)).set
          (0, 3) (some ⟨.rook, .black, (0, 3)⟩)).set
          (3, 3) (some ⟨.pawn, .black, (3, 3)⟩)) with
      turn := ChessColor.white
      castle_white := (false, false)
      castle_black := (false, false)
      en_passent := some ((3, 3), ChessColor.black) }).update_things true

/-- White king e1 and rook h1 with the king-side castling right; black
king a8 and rook f8, which attacks the traveled square f1 but not the
castling destination g1. -/
def castleThroughBoard : Board :=
  ({ ((((Board.new.set (4, 7) (some ⟨.king, .white, (4, 7)⟩)).set
          (7, 7) (some ⟨.rook, .white, (7, 7)⟩)).set
          (0, 0) (some ⟨.king, .black, (0, 0)⟩)).set
          (5, 0) (some ⟨.rook, .black, (5, 0)⟩)) with
      turn := ChessColor.white
      castle_white := (false, true)
      castle_black := (false, false) }).update_things true

/-- A white pawn on a7 about to capture-promote on b8 (occupied by a
black rook). -/
def promoBoard : Board :=
  (Board.new.set (0, 1) (some ⟨.pawn, .white, (0, 1)⟩)).set
    (1, 0) (some ⟨.rook, .black, (1, 0)⟩)

/-- White king a1 and rook e2, black king e8; the rook move e2-e6 gives
check along the e-file. -/
def checkMoveBoard : Board :=
  ({ (((Board.new.set (0, 7) (some ⟨.king, .white, (0, 7)⟩)).set
          (4, 6) (some ⟨.rook, .white, (4, 6)⟩)).set
          (4, 0) (some ⟨.king, .black, (4, 0)⟩)) with
      turn := ChessColor.white
      castle_white := (false, false)
      castle_black := (false, false) }).update_things true

/-! ## Theorems -/

/-- A piece whose color is not the side to move generates no moves
(the first guard of `Piece::get_moves`). -/
theorem Piece.get_moves_off_turn (p : Piece) (b : Board)
    (h : p.color ≠ b.turn) : p.get_moves b = [] := by
  unfold Piece.get_moves
  simp [h]

/-- C10: for every board and every color that is not the side to move,
the aggregated legal-move query returns the empty list, because each
piece's `get_moves` returns no moves when the piece's color differs from
`board.turn`. -/
theorem get_moves_nonturn_color_empty (b : Board) (c : ChessColor)
    (h : c ≠ b.turn) : b.get_moves c = [] := by
  unfold Board.get_moves
  induction b.pieces with
  | nil => rfl
  | cons p ps ih =>
    simp only [List.flatMap_cons, ih, List.append_nil]
    by_cases hc : p.color = c
    · rw [if_pos hc, Piece.get_moves_off_turn p b (hc ▸ h)]
      rfl
    · rw [if_neg hc]

/-- Witness for C10: black (not to move) has no legal moves on the
standard starting board. -/
theorem get_moves_nonturn_color_empty_witness :
    startBoard.get_moves ChessColor.black = [] :=
  get_moves_nonturn_color_empty startBoard ChessColor.black (by decide)

/-- C5: the structural hash reads exactly the grid, the two
castling-rights pairs and the en-passant field — two boards agreeing on
those four fields hash identically, whatever their other fields. -/
theorem hashCalc_congr (b1 b2 : Board) (hraw : b1.raw = b2.raw)
    (hcw : b1.castle_white = b2.castle_white)
    (hcb : b1.castle_black = b2.castle_black)
    (hep : b1.en_passent = b2.en_passent) : b1.hashCalc = b2.hashCalc := by
  unfold Board.hashCalc
  rw [hraw, hcw, hcb, hep]

/-- Witness for C5: changing turn, move counters and score leaves the
hash unchanged. -/
theorem hashCalc_congr_witness :
    ({ Board.new with
        turn := ChessColor.black, half_moves := 5, fifty_rule := 3,
        score := 99 } : Board).hashCalc = Board.new.hashCalc :=
  hashCalc_congr _ _ rfl rfl rfl rfl

/-- Counterexample to C9: `copy_move_i32` reports `false` for the
off-board destination `(8, 0)` (only negative coordinates raise the
flag), and when the flag is raised the clamped result `(0, 0)` coincides
with a valid on-board square. -/
theorem copy_move_i32_counterexample :
    Loc.copy_move_i32 (7, 0) 1 0 = ((8, 0), false) ∧
      valid_pos (8, 0) = false ∧
      Loc.copy_move_i32 (0, 0) (-1) 0 = ((0, 0), true) ∧
      valid_pos (0, 0) = true := by decide

/-- C9 as amended: the out-of-bounds flag of `copy_move_i32` is raised
exactly when the true destination has a negative coordinate; a
destination at or beyond file/row 8 is returned unflagged with its exact
coordinates (callers reject those separately through `valid_pos`), so
the flagged-false result never silently wraps; when the flag is raised
the negative coordinates are clamped to 0, which can alias a valid
square. -/
theorem copy_move_i32_amended (l : Loc) (x_diff y_diff : Int) :
    ((l.copy_move_i32 x_diff y_diff).2 = true ↔
      ((l.1 : Int) + x_diff < 0 ∨ (l.2 : Int) + y_diff < 0)) ∧
      (0 ≤ (l.1 : Int) + x_diff → 0 ≤ (l.2 : Int) + y_diff →
        (((l.copy_move_i32 x_diff y_diff).1.1 : Int) = (l.1 : Int) + x_diff ∧
          ((l.copy_move_i32 x_diff y_diff).1.2 : Int) = (l.2 : Int) + y_diff)) := by
  unfold Loc.copy_move_i32
  constructor
  · by_cases h : (l.1 : Int) + x_diff < 0 ∨ (l.2 : Int) + y_diff < 0 <;>
      simp [h]
  · intro h1 h2
    rw [if_neg (by omega)]
    constructor <;> simp <;> omega

/-- Witness for the amended C9 at the in-bounds shift `(3, 4) + (2, -1)`. -/
theorem copy_move_i32_amended_witness :
    (Loc.copy_move_i32 (3, 4) 2 (-1)).2 = false ∧
      ((Loc.copy_move_i32 (3, 4) 2 (-1)).1.1 : Int) = ((3 : Nat) : Int) + 2 :=
  ⟨by decide, ((copy_move_i32_amended (3, 4) 2 (-1)).2 (by decide) (by decide)).1⟩

/-- `Board::set` touches only the grid. -/
theorem Board.set_en_passent_eq (b : Board) (l : Loc) (v : Option Piece) :
    (b.set l v).en_passent = b.en_passent := rfl

/-- `Board::move_raw` touches only the grid. -/
theorem Board.move_raw_en_passent (b : Board) (frm dst : Loc) :
    (b.move_raw frm dst).en_passent = b.en_passent := by
  unfold Board.move_raw
  cases b.get frm <;> rfl

/-- The castle-rook-capture step touches only the castling rights. -/
theorem Board.captured_rook_raw (b : Board) (frm dst : Loc) :
    (b.captured_rook_castle_update frm dst).raw = b.raw := by
  unfold Board.captured_rook_castle_update
  repeat' split <;> try rfl

theorem Board.captured_rook_en_passent (b : Board) (frm dst : Loc) :
    (b.captured_rook_castle_update frm dst).en_passent = b.en_passent := by
  unfold Board.captured_rook_castle_update
  repeat' split <;> try rfl

theorem Board.captured_rook_get (b : Board) (frm dst l : Loc) :
    (b.captured_rook_castle_update frm dst).get l = b.get l := by
  unfold Board.get
  rw [Board.captured_rook_raw]

theorem Board.update_things_pre_en_passent (b : Board) :
    b.update_things_pre.en_passent = b.en_passent := rfl

theorem Board.update_things_post_en_passent (b : Board) (cs : Bool) :
    (b.update_things_post cs).en_passent = b.en_passent := rfl

/-- `Board::update_things` never touches `en_passent`. -/
theorem Board.update_things_en_passent (b : Board) (cs : Bool) :
    (b.update_things cs).en_passent = b.en_passent := by
  cases cs <;> rfl

/-- With `set_en_passent = false` the closing reset always leaves the
field cleared. -/
theorem Board.reset_en_passent_false (x : Board) :
    (x.reset_en_passent false).en_passent = none := by
  unfold Board.reset_en_passent
  cases h : x.en_passent <;> simp [h]

/-- With `set_en_passent = true` the closing reset keeps the field. -/
theorem Board.reset_en_passent_true (x : Board) :
    (x.reset_en_passent true).en_passent = x.en_passent := by
  unfold Board.reset_en_passent
  simp

/-- `Board::move_actions` leaves `en_passent` set exactly for a pawn that
moved two rows, recording the destination and the mover's color. -/
theorem Board.move_actions_en_passent (b : Board) (frm dst : Loc) (p : Piece)
    (h : b.get frm = some p) :
    (b.move_actions frm dst).en_passent =
      if p.name = PieceNames.pawn ∧ absDiff frm.2 dst.2 = 2 then
        some (dst, p.color)
      else none := by
  obtain ⟨name, color, pos⟩ := p
  unfold Board.move_actions
  rw [h]
  cases name
  case pawn =>
    by_cases h2 : absDiff frm.2 dst.2 = 2
    · simp only [h2, reduceIte, Board.reset_en_passent_true]
      split <;> split <;>
        simp [Board.set_en_passent_eq, h2, Board.reset_en_passent_true]
    · simp only [h2, reduceIte, Board.reset_en_passent_false]
      simp [h2, Board.reset_en_passent_false]
  all_goals
    rw [Board.reset_en_passent_false]
    simp

/-- Only `move_actions` touches `en_passent` inside the committed-move
body. -/
theorem Board.move_piece_act_en_passent (b : Board) (frm dst : Loc) :
    (b.move_piece_act frm dst).1.en_passent =
      ((b.captured_rook_castle_update frm dst).move_actions frm dst).en_passent := by
  unfold Board.move_piece_act
  simp only [Board.move_raw_en_passent]
  split <;> rfl

/-- C7: after any committed `move_piece` (for either `check_stale`), the
board's `en_passent` field is `some` exactly when the moved piece was a
pawn that advanced two rows — recording that pawn's destination square
and color — and `none` for every other committed move. -/
theorem Board.move_piece_en_passent (b : Board) (frm dst : Loc)
    (check_stale : Bool) (p : Piece) (h : b.get frm = some p) :
    ((b.move_piece frm dst check_stale).1).en_passent =
      if p.name = PieceNames.pawn ∧ absDiff frm.2 dst.2 = 2 then
        some (dst, p.color)
      else none := by
  unfold Board.move_piece
  rw [h]
  show ((b.move_piece_act frm dst).1.update_things check_stale).en_passent = _
  rw [Board.update_things_en_passent, Board.move_piece_act_en_passent,
    Board.move_actions_en_passent _ frm dst p]
  rw [Board.captured_rook_get, h]

/-- Witness for C7: the double step e2-e4 from the starting board sets
`en_passent` to the pawn's destination and color. -/
theorem Board.move_piece_en_passent_witness :
    ((startBoard.move_piece (4, 6) (4, 4) true).1).en_passent =
      some ((4, 4), ChessColor.white) := by
  rw [Board.move_piece_en_passent startBoard (4, 6) (4, 4) true
    ⟨.pawn, .white, (4, 6)⟩ (by decide)]
  decide

/-- The priority cascade of `Board::detect_state`, characterized against
the board's own fields: fifty-move draw first, then threefold
repetition, then the two-piece material draw, then check / checkmate for
the single color in check. -/
theorem Board.detect_state_char (m : Board) (cs : Bool) :
    (50 ≤ m.half_moves - m.fifty_rule → m.detect_state cs = .draw) ∧
      (m.half_moves - m.fifty_rule < 50 → 3 ≤ m.prev_states.count m.hash →
        m.detect_state cs = .draw) ∧
      (m.half_moves - m.fifty_rule < 50 → m.prev_states.count m.hash < 3 →
        m.pieces.length = 2 → m.detect_state cs = .draw) ∧
      (m.half_moves - m.fifty_rule < 50 → m.prev_states.count m.hash < 3 →
        m.pieces.length ≠ 2 → m.check_white = true → m.check_black = false →
        ((m.moves_white = [] → m.detect_state cs = .checkmate .white) ∧
          (m.moves_white ≠ [] → m.detect_state cs = .check .white))) ∧
      (m.half_moves - m.fifty_rule < 50 → m.prev_states.count m.hash < 3 →
        m.pieces.length ≠ 2 → m.check_black = true → m.check_white = false →
        ((m.moves_black = [] → m.detect_state cs = .checkmate .black) ∧
          (m.moves_black ≠ [] → m.detect_state cs = .check .black))) := by
  unfold Board.detect_state
  refine ⟨fun h1 => ?_, fun h1 h2 => ?_, fun h1 h2 h3 => ?_,
    fun h1 h2 h3 hw hb => ?_, fun h1 h2 h3 hb hw => ?_⟩
  · rw [if_pos h1]
  · rw [if_neg (not_le.mpr h1), if_pos h2]
  · rw [if_neg (not_le.mpr h1), if_neg (not_le.mpr h2), if_pos h3]
  · rw [if_neg (not_le.mpr h1), if_neg (not_le.mpr h2), if_neg h3, hw, hb]
    exact ⟨fun hm => by simp [hm], fun hm => by simp [hm]⟩
  · rw [if_neg (not_le.mpr h1), if_neg (not_le.mpr h2), if_neg h3, hw, hb]
    exact ⟨fun hm => by simp [hm], fun hm => by simp [hm]⟩

/-- C2: after every committed move (`move_piece` with
`check_stale = true`, the game path), the resulting board's `state` is
assigned by `detect_state`'s rules in priority order — fifty-move draw
when `half_moves - fifty_rule ≥ 50`, else draw on a position hash seen at
least 3 times, else draw with exactly 2 pieces left, else, for the single
color in check, checkmate when its legal-move list is empty and check
otherwise.  The resulting board's `moves_white`/`moves_black` fields are
the freshly recomputed legal-move lists. -/
theorem Board.move_piece_detect_state (b : Board) (frm dst : Loc)
    (p : Piece) (h : b.get frm = some p) (bp : Board)
    (hbp : bp = (b.move_piece frm dst true).1) :
    (50 ≤ bp.half_moves - bp.fifty_rule → bp.state = .draw) ∧
      (bp.half_moves - bp.fifty_rule < 50 →
        3 ≤ bp.prev_states.count bp.hash → bp.state = .draw) ∧
      (bp.half_moves - bp.fifty_rule < 50 → bp.prev_states.count bp.hash < 3 →
        bp.pieces.length = 2 → bp.state = .draw) ∧
      (bp.half_moves - bp.fifty_rule < 50 → bp.prev_states.count bp.hash < 3 →
        bp.pieces.length ≠ 2 → bp.check_white = true → bp.check_black = false →
        ((bp.moves_white = [] → bp.state = .checkmate .white) ∧
          (bp.moves_white ≠ [] → bp.state = .check .white))) ∧
      (bp.half_moves - bp.fifty_rule < 50 → bp.prev_states.count bp.hash < 3 →
        bp.pieces.length ≠ 2 → bp.check_black = true → bp.check_white = false →
        ((bp.moves_black = [] → bp.state = .checkmate .black) ∧
          (bp.moves_black ≠ [] → bp.state = .check .black))) := by
  subst hbp
  unfold Board.move_piece
  rw [h]
  exact Board.detect_state_char
    (let x := (b.move_piece_act frm dst).1.update_things_pre
     let x2 := { x with moves_white := x.get_moves ChessColor.white }
     { x2 with moves_black := x2.get_moves ChessColor.black }) true

set_option maxRecDepth 4000

/-- Witness for C2: on `checkMoveBoard` the rook move e2-e6 puts black
(the only color in check, with moves remaining) in state `Check(Black)`. -/
theorem Board.move_piece_detect_state_witness :
    ((checkMoveBoard.move_piece (4, 6) (4, 2) true).1).state =
      BoardState.check ChessColor.black :=
  ((Board.move_piece_detect_state checkMoveBoard (4, 6) (4, 2)
        ⟨.rook, .white, (4, 6)⟩ (by decide) _ rfl).2.2.2.2
      (by decide) (by decide) (by decide) (by decide) (by decide)).2
    (by decide)

/-- C1 failing input: on `epPinBoard` (whose cached attack/check/blocker
fields are exactly what `update_things` computes) the legal-move list of
white contains the en-passant capture e5xd6, yet after applying it with
`move_piece` white's own king is in check — the blockers prefilter never
triggered the simulate-and-check legality test for the capturing pawn. -/
theorem legal_move_leaves_own_king_attacked :
    epPinBoard.check_white = false ∧
      epPinBoard.blockers.contains (4, 3) = false ∧
      ((4, 3), ((3, 2) : Loc)) ∈ epPinBoard.get_moves .white ∧
      (epPinBoard.move_piece (4, 3) (3, 2) true).1.check_white = true := by
  decide

/-- C4 failing input: on `castleThroughBoard` white is not in check,
holds the king-side right, and the king-side castle e1-g1 is generated
by `get_moves`, although the traveled square f1 is attacked by black. -/
theorem castle_through_attacked_square :
    castleThroughBoard.check_white = false ∧
      castleThroughBoard.castle_white = (false, true) ∧
      ((4, 7), ((6, 7) : Loc)) ∈ castleThroughBoard.get_moves .white ∧
      castleThroughBoard.attacks_black.contains (5, 7) = true ∧
      castleThroughBoard.attacks_black.contains (6, 7) = false := by
  decide

/-- C8 failing input: the capture-promotion a7xb8 of a pawn capturing a
rook is scored 46 by `move_value` — the promotion branch does not fire
(it tests the origin row, where a pawn never stands on 0 or 7), and both
differences carry the sign opposite to the claim (origin-minus-
destination table values: 50; mover-minus-captured material: 1 - 5). -/
theorem move_value_promotion_capture :
    promoBoard.get (0, 1) = some ⟨.pawn, .white, (0, 1)⟩ ∧
      (promoBoard.is_capture (0, 1) (1, 0)).isSome = true ∧
      promoBoard.move_value (0, 1) (1, 0) = 46 := by
  decide

/-- C3 failing input: the board after the legal sequence 1. Nh3 a6
2. Rg1 has `castle_white = (true, false)` (king side lost), but parsing
its own FEN export restores all four rights — `as_fen` writes `K`/`Q`
for the queen-side/king-side flags respectively and `from_fen` starts
from all-true rights and never clears one.  The export of the standard
starting board itself is exactly the standard FEN string. -/
theorem fen_round_trip_loses_castling :
    (Board.from_fen fenStart).isSome = true ∧
      startBoard.as_fen = fenStart ∧
      ((6, 7), ((7, 5) : Loc)) ∈ startBoard.get_moves .white ∧
      ((0, 1), ((0, 2) : Loc)) ∈ rgBoard1.get_moves .black ∧
      ((7, 7), ((6, 7) : Loc)) ∈ rgBoard2.get_moves .white ∧
      rgBoard3.castle_white = (true, false) ∧
      (Board.from_fen rgBoard3.as_fen).map (·.castle_white) =
        some (true, true) := by
  decide

/-! ### C6: alpha-beta pruning is result-equivalent to full minimax -/


theorem ite_lt_eq_max (a s : Int) : (if a < s then s else a) = max a s := by
  rcases le_or_lt s a with h | h
  · simp [not_lt.mpr h, max_eq_left h]
  · simp [h, max_eq_right h.le]

theorem ite_lt_eq_min (a s : Int) : (if s < a then s else a) = min a s := by
  rcases le_or_lt a s with h | h
  · simp [not_lt.mpr h, min_eq_left h]
  · simp [h, min_eq_right h.le]

theorem fullLoopMax_fst (next : Board → Int × Option (Loc × Loc))
    (board : Board) (l : List (Loc × Loc)) (ms : Int)
    (bm : Option (Loc × Loc)) :
    (fullLoopMax next board l ms bm).1 =
      maxFold (fun tb => (next tb).1) board l ms := by
  induction l generalizing ms bm with
  | nil => rfl
  | cons m rest ih =>
    unfold fullLoopMax maxFold
    obtain ⟨frm, dst⟩ := m
    simp only []
    rw [ih]
    unfold maxFold
    by_cases h : ms < (next ((board.move_piece frm dst false).1)).1 <;> simp [h]
    · rw [max_eq_right h.le]
    · rw [max_eq_left (not_lt.mp h)]

theorem fullLoopMin_fst (next : Board → Int × Option (Loc × Loc))
    (board : Board) (l : List (Loc × Loc)) (ms : Int)
    (bm : Option (Loc × Loc)) :
    (fullLoopMin next board l ms bm).1 =
      minFold (fun tb => (next tb).1) board l ms := by
  induction l generalizing ms bm with
  | nil => rfl
  | cons m rest ih =>
    unfold fullLoopMin minFold
    obtain ⟨frm, dst⟩ := m
    simp only []
    rw [ih]
    unfold minFold
    by_cases h : (next ((board.move_piece frm dst false).1)).1 < ms <;> simp [h]
    · rw [min_eq_right h.le]
    · rw [min_eq_left (not_lt.mp h)]

theorem maxFold_ge_init (g : Board → Int) (board : Board)
    (l : List (Loc × Loc)) (init : Int) : init ≤ maxFold g board l init := by
  induction l generalizing init with
  | nil => exact le_refl _
  | cons m rest ih =>
    unfold maxFold
    exact le_trans (le_max_left _ _) (ih _)

theorem minFold_le_init (g : Board → Int) (board : Board)
    (l : List (Loc × Loc)) (init : Int) : minFold g board l init ≤ init := by
  induction l generalizing init with
  | nil => exact le_refl _
  | cons m rest ih =>
    unfold minFold
    exact le_trans (ih _) (min_le_left _ _)

theorem maxFold_le (g : Board → Int) (board : Board) (l : List (Loc × Loc))
    (init c : Int) (hinit : init ≤ c)
    (hch : ∀ m ∈ l, g ((board.move_piece m.1 m.2 false).1) ≤ c) :
    maxFold g board l init ≤ c := by
  induction l generalizing init with
  | nil => exact hinit
  | cons m rest ih =>
    unfold maxFold
    exact ih _ (max_le hinit (hch m (List.mem_cons_self _ _)))
      fun x hx => hch x (List.mem_cons_of_mem _ hx)

theorem minFold_ge (g : Board → Int) (board : Board) (l : List (Loc × Loc))
    (init c : Int) (hinit : c ≤ init)
    (hch : ∀ m ∈ l, c ≤ g ((board.move_piece m.1 m.2 false).1)) :
    c ≤ minFold g board l init := by
  induction l generalizing init with
  | nil => exact hinit
  | cons m rest ih =>
    unfold minFold
    exact ih _ (le_min hinit (hch m (List.mem_cons_self _ _)))
      fun x hx => hch x (List.mem_cons_of_mem _ hx)

theorem fullLoopMax_at_top (next : Board → Int × Option (Loc × Loc))
    (board : Board) (l : List (Loc × Loc)) (bm : Option (Loc × Loc))
    (hch : ∀ m ∈ l, (next ((board.move_piece m.1 m.2 false).1)).1 ≤ I32_MAX) :
    fullLoopMax next board l I32_MAX bm = (I32_MAX, bm) := by
  induction l with
  | nil => rfl
  | cons m rest ih =>
    unfold fullLoopMax
    obtain ⟨frm, dst⟩ := m
    simp only []
    rw [if_neg (not_lt.mpr (hch (frm, dst) (List.mem_cons_self _ _)))]
    exact ih fun x hx => hch x (List.mem_cons_of_mem _ hx)

theorem fullLoopMin_at_bottom (next : Board → Int × Option (Loc × Loc))
    (board : Board) (l : List (Loc × Loc)) (bm : Option (Loc × Loc))
    (hch : ∀ m ∈ l, I32_MIN ≤ (next ((board.move_piece m.1 m.2 false).1)).1) :
    fullLoopMin next board l I32_MIN bm = (I32_MIN, bm) := by
  induction l with
  | nil => rfl
  | cons m rest ih =>
    unfold fullLoopMin
    obtain ⟨frm, dst⟩ := m
    simp only []
    rw [if_neg (not_lt.mpr (hch (frm, dst) (List.mem_cons_self _ _)))]
    exact ih fun x hx => hch x (List.mem_cons_of_mem _ hx)

theorem GridWF_set (b : Board) (l : Loc) (v : Option Piece)
    (h : GridWF b.raw) : GridWF (b.set l v).raw := by
  obtain ⟨hlen, hrow⟩ := h
  unfold Board.set
  refine ⟨by simpa using hlen, ?_⟩
  intro row hmem
  by_cases hl : l.2 < b.raw.length
  · rcases List.mem_or_eq_of_mem_set hmem with hin | heq
    · exact hrow _ hin
    · subst heq
      rw [List.length_set, List.getD_eq_getElem _ _ hl]
      exact hrow _ (List.getElem_mem _)
  · rw [List.set_eq_of_length_le (not_lt.mp hl)] at hmem
    exact hrow _ hmem

theorem GridWF_move_raw (b : Board) (frm dst : Loc) (h : GridWF b.raw) :
    GridWF (b.move_raw frm dst).raw := by
  unfold Board.move_raw
  cases b.get frm
  · exact GridWF_set _ _ _ (GridWF_set _ _ _ h)
  · exact GridWF_set _ _ _ (GridWF_set _ _ _ (GridWF_set _ _ _ h))

theorem reset_en_passent_raw (x : Board) (s : Bool) :
    (x.reset_en_passent s).raw = x.raw := by
  unfold Board.reset_en_passent
  split <;> rfl

theorem GridWF_reset_en_passent (x : Board) (s : Bool) (h : GridWF x.raw) :
    GridWF (x.reset_en_passent s).raw := by
  rw [reset_en_passent_raw]
  exact h

theorem GridWF_move_actions (b : Board) (frm dst : Loc) (h : GridWF b.raw) :
    GridWF (b.move_actions frm dst).raw := by
  unfold Board.move_actions
  cases b.get frm
  · exact GridWF_reset_en_passent _ _ h
  · rename_i p
    obtain ⟨name, color, pos⟩ := p
    cases name <;> refine GridWF_reset_en_passent _ _ ?_ <;> repeat' split
    all_goals
      repeat
        first
          | exact h
          | apply GridWF_set
          | apply GridWF_move_raw
          | split

theorem GridWF_captured_rook (b : Board) (frm dst : Loc)
    (h : GridWF b.raw) : GridWF (b.captured_rook_castle_update frm dst).raw := by
  rw [Board.captured_rook_raw]
  exact h

theorem update_things_raw (b : Board) (cs : Bool) :
    (b.update_things cs).raw = b.raw := by
  cases cs <;> rfl

theorem GridWF_move_piece_act (b : Board) (frm dst : Loc)
    (h : GridWF b.raw) : GridWF (b.move_piece_act frm dst).1.raw := by
  unfold Board.move_piece_act
  simp only []
  split <;>
    exact GridWF_move_raw _ _ _
      (GridWF_move_actions _ _ _ (GridWF_captured_rook _ _ _ h))

theorem GridWF_move_piece (b : Board) (frm dst : Loc) (cs : Bool)
    (h : GridWF b.raw) : GridWF (b.move_piece frm dst cs).1.raw := by
  unfold Board.move_piece
  cases b.get frm
  · exact h
  · show GridWF ((b.move_piece_act frm dst).1.update_things cs).raw
    rw [update_things_raw]
    exact GridWF_move_piece_act _ _ _ h

theorem get_score_congr (x y : Board) (hs : x.state = y.state)
    (hraw : x.raw = y.raw) (he : x.endgame = y.endgame) :
    x.get_score = y.get_score := by
  unfold Board.get_score Board.pieces
  rw [hs, hraw, he]

theorem update_things_post_SC (x : Board) (cs : Bool) :
    ScoreComputed (x.update_things_post cs) := by
  unfold ScoreComputed
  exact (get_score_congr _ _ rfl rfl rfl).symm

theorem update_things_SC (x : Board) (cs : Bool) :
    ScoreComputed (x.update_things cs) := by
  cases cs <;> exact update_things_post_SC _ _

theorem move_piece_SC (b : Board) (frm dst : Loc) (cs : Bool)
    (hb : ScoreComputed b) : ScoreComputed (b.move_piece frm dst cs).1 := by
  unfold Board.move_piece
  cases b.get frm
  · exact hb
  · exact update_things_SC _ cs

theorem table_entry_bound (t : List (List Int))
    (hb : ∀ row ∈ t, ∀ v ∈ row, -50 ≤ v ∧ v ≤ 50) (y x : Nat) :
    -50 ≤ (t.getD y []).getD x 0 ∧ (t.getD y []).getD x 0 ≤ 50 := by
  by_cases hy : y < t.length
  · rw [List.getD_eq_getElem t [] hy]
    by_cases hx : x < (t[y]).length
    · rw [List.getD_eq_getElem _ 0 hx]
      exact hb _ (List.getElem_mem hy) _ (List.getElem_mem hx)
    · rw [List.getD_eq_default _ 0 (not_lt.mp hx)]
      exact ⟨by norm_num, by norm_num⟩
  · rw [List.getD_eq_default t [] (not_lt.mp hy)]
    simp

theorem piece_table_bound (p : Piece) (e : Bool) :
    ∀ row ∈ piece_table p e, ∀ v ∈ row, -50 ≤ v ∧ v ≤ 50 := by
  obtain ⟨name, color, pos⟩ := p
  cases name <;> cases color <;> cases e <;>
    first
          | exact (by decide : ∀ row ∈ pawnTableW, ∀ v ∈ row, -50 ≤ v ∧ v ≤ 50)
          | exact (by decide : ∀ row ∈ pawnTableB, ∀ v ∈ row, -50 ≤ v ∧ v ≤ 50)
          | exact (by decide : ∀ row ∈ bishopTableW, ∀ v ∈ row, -50 ≤ v ∧ v ≤ 50)
          | exact (by decide : ∀ row ∈ bishopTableB, ∀ v ∈ row, -50 ≤ v ∧ v ≤ 50)
          | exact (by decide : ∀ row ∈ knightTableW, ∀ v ∈ row, -50 ≤ v ∧ v ≤ 50)
          | exact (by decide : ∀ row ∈ knightTableB, ∀ v ∈ row, -50 ≤ v ∧ v ≤ 50)
          | exact (by decide : ∀ row ∈ rookTableW, ∀ v ∈ row, -50 ≤ v ∧ v ≤ 50)
          | exact (by decide : ∀ row ∈ rookTableB, ∀ v ∈ row, -50 ≤ v ∧ v ≤ 50)
          | exact (by decide : ∀ row ∈ queenTableW, ∀ v ∈ row, -50 ≤ v ∧ v ≤ 50)
          | exact (by decide : ∀ row ∈ queenTableB, ∀ v ∈ row, -50 ≤ v ∧ v ≤ 50)
          | exact (by decide : ∀ row ∈ kingTableMidW, ∀ v ∈ row, -50 ≤ v ∧ v ≤ 50)
          | exact (by decide : ∀ row ∈ kingTableMidB, ∀ v ∈ row, -50 ≤ v ∧ v ≤ 50)
          | exact (by decide : ∀ row ∈ kingTableEndW, ∀ v ∈ row, -50 ≤ v ∧ v ≤ 50)
          | exact (by decide : ∀ row ∈ kingTableEndB, ∀ v ∈ row, -50 ≤ v ∧ v ≤ 50)

theorem full_piece_value_bound (p : Piece) (e : Bool) :
    50 ≤ full_piece_value p e ∧ full_piece_value p e ≤ 20050 := by
  unfold full_piece_value
  have ht := table_entry_bound (piece_table p e) (piece_table_bound p e)
    p.pos.2 p.pos.1
  have hv : 100 ≤ piece_value p.name ∧ piece_value p.name ≤ 20000 := by
    cases hn : p.name <;> simp [piece_value]
  omega

theorem score_fold_bound (l : List Piece) (e : Bool) (s : Int) :
    |l.foldl
        (fun score piece =>
          if piece.color = ChessColor.white then
            score + full_piece_value piece e
          else score - full_piece_value piece e)
        s| ≤ |s| + l.length * 20050 := by
  induction l generalizing s with
  | nil => simp
  | cons p rest ih =>
    simp only [List.foldl_cons, List.length_cons]
    have hb := full_piece_value_bound p e
    have hstep :
        |(if p.color = ChessColor.white then s + full_piece_value p e
          else s - full_piece_value p e)| ≤ |s| + 20050 := by
      split
      · calc |s + full_piece_value p e| ≤ |s| + |full_piece_value p e| :=
              abs_add _ _
          _ ≤ |s| + 20050 := by
              have : |full_piece_value p e| ≤ 20050 := abs_le.mpr ⟨by omega, hb.2⟩
              omega
      · calc |s - full_piece_value p e| ≤ |s| + |full_piece_value p e| :=
              abs_sub _ _
          _ ≤ |s| + 20050 := by
              have : |full_piece_value p e| ≤ 20050 := abs_le.mpr ⟨by omega, hb.2⟩
              omega
    calc _ ≤ _ := ih _
      _ ≤ (|s| + 20050) + rest.length * 20050 := by omega
      _ = |s| + (rest.length + 1) * 20050 := by ring
      _ = |s| + (↑(rest.length + 1) : Int) * 20050 := by norm_num

theorem grid_pieces_length (g : List (List (Option Piece)))
    (hrow : ∀ row ∈ g, row.length = 8) :
    (g.flatMap fun row => row.filterMap id).length ≤ g.length * 8 := by
  induction g with
  | nil => simp
  | cons row rest ih =>
    simp only [List.flatMap_cons, List.length_append, List.length_cons]
    have h1 : (row.filterMap id).length ≤ 8 := by
      rw [← hrow row (List.mem_cons_self _ _)]
      exact List.length_filterMap_le _ _
    have h2 := ih fun r hr => hrow r (List.mem_cons_of_mem _ hr)
    calc (row.filterMap id).length + (rest.flatMap fun r => r.filterMap id).length
        ≤ 8 + rest.length * 8 := by omega
      _ = (rest.length + 1) * 8 := by ring

theorem pieces_length_le (b : Board) (h : GridWF b.raw) :
    b.pieces.length ≤ 64 := by
  obtain ⟨h8, hrow⟩ := h
  have := grid_pieces_length b.raw hrow
  rw [h8] at this
  exact this

theorem get_score_bound (b : Board) (h : GridWF b.raw) :
    -1283250 ≤ b.get_score ∧ b.get_score ≤ 1283250 := by
  unfold Board.get_score
  have hlen := pieces_length_le b h
  have hfold := score_fold_bound b.pieces b.endgame 0
  have hfold2 : |List.foldl
      (fun score piece =>
        if piece.color = ChessColor.white then
          score + full_piece_value piece b.endgame
        else score - full_piece_value piece b.endgame) 0 b.pieces| ≤ 1283200 := by
    calc _ ≤ |(0 : Int)| + b.pieces.length * 20050 := hfold
      _ ≤ 0 + 64 * 20050 := by
          simp only [abs_zero]
          have : (b.pieces.length : Int) ≤ 64 := by exact_mod_cast hlen
          nlinarith
      _ = 1283200 := by norm_num
  rw [abs_le] at hfold2
  cases hs : b.state
  case normal =>
    simp only [CHECKMATE_VALUE, STALEMATE_VALUE, CHECK_VALUE]
    constructor <;> omega
  case check c =>
    cases c <;>
      simp only [CHECKMATE_VALUE, STALEMATE_VALUE, CHECK_VALUE, reduceIte] <;>
      constructor <;> omega
  case checkmate c =>
    cases c <;>
      simp only [CHECKMATE_VALUE, STALEMATE_VALUE, CHECK_VALUE, reduceIte] <;>
      constructor <;> omega
  case stalemate =>
    simp only [STALEMATE_VALUE]
    constructor <;> omega
  case draw =>
    simp only [STALEMATE_VALUE]
    constructor <;> omega

theorem score_in_i32 (b : Board) (h : GridWF b.raw)
    (hs : ScoreComputed b) : I32_MIN ≤ b.score ∧ b.score ≤ I32_MAX := by
  rw [hs]
  have := get_score_bound b h
  unfold I32_MIN I32_MAX
  omega

theorem minimax_unpruned_bounds (r : Nat) (d : Nat) :
    ∀ (b : Board) (mx : Bool), GridWF b.raw → ScoreComputed b →
      I32_MIN ≤ (minimax_unpruned r d b mx).1 ∧
        (minimax_unpruned r d b mx).1 ≤ I32_MAX := by
  induction d with
  | zero =>
    intro b mx hw hs
    exact score_in_i32 b hw hs
  | succ d ih =>
    intro b mx hw hs
    unfold minimax_unpruned
    by_cases ho : b.is_over = true
    · rw [if_pos ho]
      exact score_in_i32 b hw hs
    · rw [if_neg ho]
      by_cases hf : b.full_moves = 0
      · rw [if_pos hf]
        exact ⟨by simp [I32_MIN], by simp [I32_MAX]⟩
      · rw [if_neg hf]
        have hch : ∀ (m : Loc × Loc) (m2 : Bool),
            I32_MIN ≤ (minimax_unpruned r d ((b.move_piece m.1 m.2 false).1) m2).1 ∧
              (minimax_unpruned r d ((b.move_piece m.1 m.2 false).1) m2).1 ≤ I32_MAX := by
          intro m m2
          exact ih _ _ (GridWF_move_piece b m.1 m.2 false hw)
            (move_piece_SC b m.1 m.2 false hs)
        cases mx
        · simp only [Bool.false_eq_true, reduceIte]
          rw [fullLoopMin_fst]
          refine ⟨minFold_ge _ _ _ _ _ ?_ ?_, le_trans (minFold_le_init _ _ _ _) (le_refl _)⟩
          · unfold I32_MIN I32_MAX; omega
          · intro m _; exact (hch m true).1
        · simp only [reduceIte]
          rw [fullLoopMax_fst]
          refine ⟨maxFold_ge_init _ _ _ _, maxFold_le _ _ _ _ _ ?_ ?_⟩
          · unfold I32_MIN I32_MAX; omega
          · intro m _; exact (hch m false).2

theorem maxFold_cons (g : Board → Int) (board : Board) (m : Loc × Loc)
    (rest : List (Loc × Loc)) (init : Int) :
    maxFold g board (m :: rest) init =
      maxFold g board rest (max init (g ((board.move_piece m.1 m.2 false).1))) :=
  rfl

theorem minFold_cons (g : Board → Int) (board : Board) (m : Loc × Loc)
    (rest : List (Loc × Loc)) (init : Int) :
    minFold g board (m :: rest) init =
      minFold g board rest (min init (g ((board.move_piece m.1 m.2 false).1))) :=
  rfl

theorem abLoopMax_tri (next : Board → Int → Int → Int × Option (Loc × Loc))
    (g : Board → Int) (board : Board) (al be : Int)
    (hnext : ∀ (frm dst : Loc) (a : Int), al ≤ a → a < be →
      triRel a be (next ((board.move_piece frm dst false).1) a be).1
        (g ((board.move_piece frm dst false).1))) :
    ∀ (l : List (Loc × Loc)) (P U : Int) (bm : Option (Loc × Loc)) (a : Int),
      a = max al P → U ≤ P → P ≤ max al U → a < be →
      triRel al be (abLoopMax next board be l P bm a).1
        (maxFold g board l U) := by
  intro l
  induction l with
  | nil =>
    intro P U bm a h1 h2 h3 h4
    unfold abLoopMax maxFold triRel
    simp only [List.foldl]
    omega
  | cons m rest ih =>
    intro P U bm a h1 h2 h3 h4
    obtain ⟨frm, dst⟩ := m
    have htri := hnext frm dst a (by omega) h4
    unfold triRel at htri
    rw [maxFold_cons]
    unfold abLoopMax
    simp only []
    by_cases hupd : P < (next ((board.move_piece frm dst false).1) a be).1
    · rw [if_pos hupd]
      by_cases hcut : be ≤ max a (next ((board.move_piece frm dst false).1) a be).1
      · rw [if_pos hcut]
        have hm := maxFold_ge_init g board rest
          (max U (g ((board.move_piece (frm, dst).1 (frm, dst).2 false).1)))
        unfold triRel
        constructor
        · intro hl hr
          simp only [] at hm
          omega
        · constructor <;> intro hc <;> simp only [] at hm <;> omega
      · rw [if_neg hcut]
        exact ih _ (max U (g ((board.move_piece (frm, dst).1 (frm, dst).2 false).1)))
          _ _ (by simp only []; omega) (by simp only []; omega)
          (by simp only []; omega) (by omega)
    · rw [if_neg hupd]
      by_cases hcut : be ≤ max a P
      · exact absurd hcut (by omega)
      · rw [if_neg hcut]
        exact ih _ (max U (g ((board.move_piece (frm, dst).1 (frm, dst).2 false).1)))
          _ _ (by omega) (by simp only []; omega)
          (by simp only []; omega) (by omega)

theorem abLoopMin_tri (next : Board → Int → Int → Int × Option (Loc × Loc))
    (g : Board → Int) (board : Board) (al be : Int)
    (hnext : ∀ (frm dst : Loc) (b : Int), b ≤ be → al < b →
      triRel al b (next ((board.move_piece frm dst false).1) al b).1
        (g ((board.move_piece frm dst false).1))) :
    ∀ (l : List (Loc × Loc)) (P U : Int) (bm : Option (Loc × Loc)) (b : Int),
      b = min be P → P ≤ U → min be U ≤ P → al < b →
      triRel al be (abLoopMin next board al l P bm b).1
        (minFold g board l U) := by
  intro l
  induction l with
  | nil =>
    intro P U bm b h1 h2 h3 h4
    unfold abLoopMin minFold triRel
    simp only [List.foldl]
    omega
  | cons m rest ih =>
    intro P U bm b h1 h2 h3 h4
    obtain ⟨frm, dst⟩ := m
    have htri := hnext frm dst b (by omega) h4
    unfold triRel at htri
    rw [minFold_cons]
    unfold abLoopMin
    simp only []
    by_cases hupd : (next ((board.move_piece frm dst false).1) al b).1 < P
    · rw [if_pos hupd]
      by_cases hcut : min b (next ((board.move_piece frm dst false).1) al b).1 ≤ al
      · rw [if_pos hcut]
        have hm := minFold_le_init g board rest
          (min U (g ((board.move_piece (frm, dst).1 (frm, dst).2 false).1)))
        unfold triRel
        constructor
        · intro hl hr
          simp only [] at hm
          omega
        · constructor <;> intro hc <;> simp only [] at hm <;> omega
      · rw [if_neg hcut]
        exact ih _ (min U (g ((board.move_piece (frm, dst).1 (frm, dst).2 false).1)))
          _ _ (by simp only []; omega) (by simp only []; omega)
          (by simp only []; omega) (by omega)
    · rw [if_neg hupd]
      by_cases hcut : min b P ≤ al
      · exact absurd hcut (by omega)
      · rw [if_neg hcut]
        exact ih _ (min U (g ((board.move_piece (frm, dst).1 (frm, dst).2 false).1)))
          _ _ (by omega) (by simp only []; omega)
          (by simp only []; omega) (by omega)

theorem triRel_refl (al be s : Int) : triRel al be s s :=
  ⟨fun _ _ => rfl, fun h => ⟨le_refl _, h⟩, fun h => ⟨h, le_refl _⟩⟩

theorem minimax_tri (r : Nat) (d : Nat) :
    ∀ (b : Board) (mx : Bool) (al be : Int), GridWF b.raw → ScoreComputed b →
      I32_MIN ≤ al → be ≤ I32_MAX → al < be →
      triRel al be (minimax r d b mx al be).1 (minimax_unpruned r d b mx).1 := by
  induction d with
  | zero =>
    intro b mx al be hw hs h1 h2 h3
    exact triRel_refl al be b.score
  | succ d ih =>
    intro b mx al be hw hs h1 h2 h3
    unfold minimax minimax_unpruned
    by_cases ho : b.is_over = true
    · rw [if_pos ho, if_pos ho]
      exact triRel_refl al be b.score
    · rw [if_neg ho, if_neg ho]
      by_cases hf : b.full_moves = 0
      · rw [if_pos hf, if_pos hf]
        exact triRel_refl al be 0
      · rw [if_neg hf, if_neg hf]
        cases mx
        · simp only [Bool.false_eq_true, reduceIte]
          rw [fullLoopMin_fst]
          exact abLoopMin_tri _ _ _ al be
            (fun frm dst bb hb hab =>
              ih _ true al bb (GridWF_move_piece b frm dst false hw)
                (move_piece_SC b frm dst false hs) h1 (le_trans hb h2) hab)
            _ I32_MAX I32_MAX none be
            (by unfold I32_MAX at h2 ⊢; omega) (le_refl _)
            (by unfold I32_MAX at h2 ⊢; omega) h3
        · simp only [reduceIte]
          rw [fullLoopMax_fst]
          exact abLoopMax_tri _ _ _ al be
            (fun frm dst aa ha hab =>
              ih _ false aa be (GridWF_move_piece b frm dst false hw)
                (move_piece_SC b frm dst false hs) (le_trans h1 ha) h2 hab)
            _ I32_MIN I32_MIN none al
            (by unfold I32_MIN at h1 ⊢; omega) (le_refl _)
            (by unfold I32_MIN at h1 ⊢; omega) h3

theorem abLoopMax_root (next : Board → Int → Int → Int × Option (Loc × Loc))
    (nextU : Board → Int × Option (Loc × Loc)) (board : Board)
    (hnext : ∀ (frm dst : Loc) (a : Int), I32_MIN ≤ a → a < I32_MAX →
      triRel a I32_MAX (next ((board.move_piece frm dst false).1) a I32_MAX).1
        ((nextU ((board.move_piece frm dst false).1)).1))
    (hvb : ∀ (frm dst : Loc),
      I32_MIN ≤ (nextU ((board.move_piece frm dst false).1)).1 ∧
        (nextU ((board.move_piece frm dst false).1)).1 ≤ I32_MAX) :
    ∀ (l : List (Loc × Loc)) (P : Int) (bm : Option (Loc × Loc)) (a : Int),
      a = P → I32_MIN ≤ P → P < I32_MAX →
      abLoopMax next board I32_MAX l P bm a = fullLoopMax nextU board l P bm := by
  intro l
  induction l with
  | nil =>
    intro P bm a h1 h2 h3
    rfl
  | cons m rest ih =>
    intro P bm a h1 h2 h3
    obtain ⟨frm, dst⟩ := m
    subst h1
    have htri := hnext frm dst a h2 h3
    unfold triRel at htri
    have hv := hvb frm dst
    unfold abLoopMax fullLoopMax
    simp only []
    by_cases hup : a < (nextU ((board.move_piece frm dst false).1)).1
    · have hse : (next ((board.move_piece frm dst false).1) a I32_MAX).1 =
          (nextU ((board.move_piece frm dst false).1)).1 := by
        omega
      rw [hse, if_pos hup]
      dsimp only
      by_cases hcut : I32_MAX ≤ max a ((nextU ((board.move_piece frm dst false).1)).1)
      · rw [if_pos hcut]
        have hveq : (nextU ((board.move_piece frm dst false).1)).1 = I32_MAX := by
          omega
        rw [hveq]
        exact (fullLoopMax_at_top nextU board rest _
          fun x _ => (hvb x.1 x.2).2).symm
      · rw [if_neg hcut]
        exact ih _ _ _ (by omega) (by omega) (by omega)
    · have hsn : ¬ a < (next ((board.move_piece frm dst false).1) a I32_MAX).1 := by
        omega
      rw [if_neg hsn, if_neg hup]
      dsimp only
      by_cases hcut : I32_MAX ≤ max a a
      · exact absurd hcut (by omega)
      · rw [if_neg hcut]
        exact ih _ _ _ (by omega) h2 h3

theorem abLoopMin_root (next : Board → Int → Int → Int × Option (Loc × Loc))
    (nextU : Board → Int × Option (Loc × Loc)) (board : Board)
    (hnext : ∀ (frm dst : Loc) (b : Int), b ≤ I32_MAX → I32_MIN < b →
      triRel I32_MIN b (next ((board.move_piece frm dst false).1) I32_MIN b).1
        ((nextU ((board.move_piece frm dst false).1)).1))
    (hvb : ∀ (frm dst : Loc),
      I32_MIN ≤ (nextU ((board.move_piece frm dst false).1)).1 ∧
        (nextU ((board.move_piece frm dst false).1)).1 ≤ I32_MAX) :
    ∀ (l : List (Loc × Loc)) (P : Int) (bm : Option (Loc × Loc)) (b : Int),
      b = P → P ≤ I32_MAX → I32_MIN < P →
      abLoopMin next board I32_MIN l P bm b = fullLoopMin nextU board l P bm := by
  intro l
  induction l with
  | nil =>
    intro P bm b h1 h2 h3
    rfl
  | cons m rest ih =>
    intro P bm b h1 h2 h3
    obtain ⟨frm, dst⟩ := m
    subst h1
    have htri := hnext frm dst b h2 h3
    unfold triRel at htri
    have hv := hvb frm dst
    unfold abLoopMin fullLoopMin
    simp only []
    by_cases hup : (nextU ((board.move_piece frm dst false).1)).1 < b
    · have hse : (next ((board.move_piece frm dst false).1) I32_MIN b).1 =
          (nextU ((board.move_piece frm dst false).1)).1 := by
        omega
      rw [hse, if_pos hup]
      dsimp only
      by_cases hcut : min b ((nextU ((board.move_piece frm dst false).1)).1) ≤ I32_MIN
      · rw [if_pos hcut]
        have hveq : (nextU ((board.move_piece frm dst false).1)).1 = I32_MIN := by
          omega
        rw [hveq]
        exact (fullLoopMin_at_bottom nextU board rest _
          fun x _ => (hvb x.1 x.2).1).symm
      · rw [if_neg hcut]
        exact ih _ _ _ (by omega) (by omega) (by omega)
    · have hsn : ¬ (next ((board.move_piece frm dst false).1) I32_MIN b).1 < b := by
        omega
      rw [if_neg hsn, if_neg hup]
      dsimp only
      by_cases hcut : min b b ≤ I32_MIN
      · exact absurd hcut (by omega)
      · rw [if_neg hcut]
        exact ih _ _ _ (by omega) h2 h3

/-- C6: for every board (with a well-formed 8x8 grid and its stored
score computed, as every board the engine builds satisfies) and every
search depth, `minimax` run at the root with the full window
`(i32::MIN, i32::MAX)` returns the same score AND the same best move as
the identical recursion with the alpha-beta cutoff disabled; pruning
changes only which nodes are visited. -/
theorem minimax_alphabeta_eq (r : Nat) (d : Nat) (b : Board) (mx : Bool)
    (hw : GridWF b.raw) (hs : ScoreComputed b) :
    minimax r d b mx I32_MIN I32_MAX = minimax_unpruned r d b mx := by
  cases d with
  | zero => rfl
  | succ d =>
    unfold minimax minimax_unpruned
    by_cases ho : b.is_over = true
    · rw [if_pos ho, if_pos ho]
    · rw [if_neg ho, if_neg ho]
      by_cases hf : b.full_moves = 0
      · rw [if_pos hf, if_pos hf]
      · rw [if_neg hf, if_neg hf]
        cases mx
        · simp only [Bool.false_eq_true, reduceIte]
          exact abLoopMin_root _ _ _
            (fun frm dst bb hb hab => minimax_tri r d _ true I32_MIN bb
              (GridWF_move_piece b frm dst false hw)
              (move_piece_SC b frm dst false hs) (le_refl _) hb hab)
            (fun frm dst => minimax_unpruned_bounds r d _ true
              (GridWF_move_piece b frm dst false hw)
              (move_piece_SC b frm dst false hs))
            _ I32_MAX none I32_MAX rfl (le_refl _)
            (by unfold I32_MIN I32_MAX; omega)
        · simp only [reduceIte]
          exact abLoopMax_root _ _ _
            (fun frm dst aa ha hab => minimax_tri r d _ false aa I32_MAX
              (GridWF_move_piece b frm dst false hw)
              (move_piece_SC b frm dst false hs) ha (le_refl _) hab)
            (fun frm dst => minimax_unpruned_bounds r d _ false
              (GridWF_move_piece b frm dst false hw)
              (move_piece_SC b frm dst false hs))
            _ I32_MIN none I32_MIN rfl (le_refl _)
            (by unfold I32_MIN I32_MAX; omega)

set_option maxRecDepth 8000 in
/-- C6 witness: the equivalence applied at the standard starting board,
depth 2, maximizing, with the hypotheses discharged by computation. -/
theorem minimax_alphabeta_eq_witness :
    GridWF startBoard.raw ∧ ScoreComputed startBoard ∧
      minimax 0 2 startBoard true I32_MIN I32_MAX =
        minimax_unpruned 0 2 startBoard true :=
  ⟨by decide, by decide, minimax_alphabeta_eq 0 2 startBoard true (by decide) (by decide)⟩

end Chess
